import Mathlib

/-!
# JSON lexer (`parser.go`): shallow embedding and verified properties

The Go lexer is embedded as pure functions on an explicit `Lexer` state.

* A rune is a `Char`; `[]rune(input)` is the character list of the input string.
* Go `int` fields (`position`, `readPosition`, `line`, `Start`, `End`) are `Nat`:
  they start at zero and only grow by one per step, so 64-bit wrap-around is
  out of reach of any real run.
* `Type` is a string alias in Go and stays a string here (`TokenType`).
* Every `for` loop carries a fuel counter; running out of fuel gives `none`.
  The entry points use the fuel `len(Input) + 2`, which is shown to suffice.
* A slice expression `xs[a:b]` outside `a ≤ b ≤ len xs` is modelled by `none`
  (Go panics once `b` exceeds the capacity, which is at least the length; the
  stricter bound `len xs` is the one within which the runes read are input).
* Claims about "every lexer state" are stated for the states that satisfy the
  cursor invariant `Lexer.WF`, which holds after `New` and after every call.
-/

namespace JsonLexer

/-- Go `type Type string`. -/
abbrev TokenType := String

namespace TokenType

def Illegal : TokenType := "ILLEGAL"
def EOF : TokenType := "EOF"
def String : TokenType := "STRING"
def Number : TokenType := "NUMBER"
def LeftBrace : TokenType := "\x7b"
def RightBrace : TokenType := "\x7d"
def LeftBracket : TokenType := "["
def RightBracket : TokenType := "]"
def Comma : TokenType := ","
def Colon : TokenType := ":"
def True : TokenType := "TRUE"
def False : TokenType := "FALSE"
def Null : TokenType := "NULL"

end TokenType

/-- Go `type Token struct`; the field `Type` is spelled `Typ`. -/
structure Token where
  Typ : TokenType
  Literal : String
  Line : Nat
  Start : Nat
  End : Nat
  deriving DecidableEq, Repr

/-- Go `type Lexer struct`. -/
structure Lexer where
  Input : List Char
  char : Char
  position : Nat
  readPosition : Nat
  line : Nat
  deriving DecidableEq, Repr

/-- The rune `0` (NUL), used by the lexer as its end-of-input sentinel. -/
def NUL : Char := Char.ofNat 0

/-- Go `func (l *Lexer) readChar()`. -/
def readChar (l : Lexer) : Lexer :=
  let c : Char :=
    if h : l.readPosition ≥ l.Input.length then NUL
    else l.Input.get ⟨l.readPosition, Nat.lt_of_not_le h⟩
  { l with char := c, position := l.readPosition, readPosition := l.readPosition + 1 }

/-- Go `func New(input string) *Lexer`. -/
def New (input : String) : Lexer :=
  readChar { Input := input.data, char := NUL, position := 0, readPosition := 0, line := 0 }

/-- Go `var validJSONIdentifiers = map[string]Type{...}`. -/
def validJSONIdentifiers : List (String × TokenType) :=
  [("true", TokenType.True), ("false", TokenType.False), ("null", TokenType.Null)]

/-- Go `func LookupIdentifier(identifier string) (Type, error)`; the error is
`none` for `nil` and `some message` otherwise. -/
def LookupIdentifier (identifier : String) : TokenType × Option String :=
  match validJSONIdentifiers.lookup identifier with
  | some token => (token, none)
  | none => ("", some ("Expected a valid JSON identifier. Found: " ++ identifier))

/-- Go `func newToken(tokenType Type, line, start, end int, char ...rune) Token`. -/
def newToken (tokenType : TokenType) (line start end_ : Nat) (char : List Char) : Token :=
  { Typ := tokenType, Literal := String.mk char, Line := line, Start := start, End := end_ }

/-- Go `func isNumber(char rune) bool`. -/
def isNumber (char : Char) : Bool :=
  ('0' ≤ char && char ≤ '9') || char == '.' || char == '-'

/-- Go `func isLetter(char rune) bool`. -/
def isLetter (char : Char) : Bool :=
  'a' ≤ char && char ≤ 'z'

/-- The loop condition of `skipWhitespace`. -/
def isWhitespace (char : Char) : Bool :=
  char == ' ' || char == '\t' || char == '\n' || char == '\r'

/-- Go slice expression `xs[a:b]`; `none` is the out-of-range panic. -/
def slice (xs : List Char) (a b : Nat) : Option (List Char) :=
  if a ≤ b ∧ b ≤ xs.length then some ((xs.drop a).take (b - a)) else none

/-- The `for` loop of `skipWhitespace`. -/
def skipWhitespaceLoop : Nat → Lexer → Option Lexer
  | 0, _ => none
  | fuel + 1, l =>
    if isWhitespace l.char then
      let l := if l.char = '\n' then { l with line := l.line + 1 } else l
      skipWhitespaceLoop fuel (readChar l)
    else some l

/-- Go `func (l *Lexer) skipWhitespace()`. -/
def skipWhitespace (l : Lexer) : Option Lexer :=
  skipWhitespaceLoop (l.Input.length + 2) l

/-- The `for { ... }` loop of `readString`. -/
def readStringLoop : Nat → Lexer → Option Lexer
  | 0, _ => none
  | fuel + 1, l =>
    let prevChar := l.char
    let l := readChar l
    if (l.char = '"' ∧ prevChar ≠ '\\') ∨ l.char = NUL then some l
    else readStringLoop fuel l

/-- Go `func (l *Lexer) readString() string`. -/
def readString (l : Lexer) : Option (String × Lexer) :=
  let position := l.position + 1
  match readStringLoop (l.Input.length + 2) l with
  | none => none
  | some l =>
    match slice l.Input position l.position with
    | none => none
    | some s => some (String.mk s, l)

/-- The `for isNumber(l.char)` loop of `readNumber`. -/
def readNumberLoop : Nat → Lexer → Option Lexer
  | 0, _ => none
  | fuel + 1, l => if isNumber l.char then readNumberLoop fuel (readChar l) else some l

/-- Go `func (l *Lexer) readNumber() string`. -/
def readNumber (l : Lexer) : Option (String × Lexer) :=
  let position := l.position
  match readNumberLoop (l.Input.length + 2) l with
  | none => none
  | some l =>
    match slice l.Input position l.position with
    | none => none
    | some s => some (String.mk s, l)

/-- The `for isLetter(l.char)` loop of `readIdentifier`. -/
def readIdentifierLoop : Nat → Lexer → Option Lexer
  | 0, _ => none
  | fuel + 1, l => if isLetter l.char then readIdentifierLoop fuel (readChar l) else some l

/-- Go `func (l *Lexer) readIdentifier() string`. -/
def readIdentifier (l : Lexer) : Option (String × Lexer) :=
  let position := l.position
  match readIdentifierLoop (l.Input.length + 2) l with
  | none => none
  | some l =>
    match slice l.Input position l.position with
    | none => none
    | some s => some (String.mk s, l)

/-- Go `func (l *Lexer) NextToken() Token`: the token returned together with
the lexer state the call leaves behind. -/
def NextToken (l : Lexer) : Option (Token × Lexer) :=
  let t : Token := { Typ := "", Literal := "", Line := 0, Start := 0, End := 0 }
  match skipWhitespace l with
  | none => none
  | some l =>
    if l.char = '\x7b' then
      some (newToken TokenType.LeftBrace l.line l.position (l.position + 1) [l.char], readChar l)
    else if l.char = '\x7d' then
      some (newToken TokenType.RightBrace l.line l.position (l.position + 1) [l.char], readChar l)
    else if l.char = '[' then
      some (newToken TokenType.LeftBracket l.line l.position (l.position + 1) [l.char], readChar l)
    else if l.char = ']' then
      some (newToken TokenType.RightBracket l.line l.position (l.position + 1) [l.char], readChar l)
    else if l.char = ':' then
      some (newToken TokenType.Colon l.line l.position (l.position + 1) [l.char], readChar l)
    else if l.char = ',' then
      some (newToken TokenType.Comma l.line l.position (l.position + 1) [l.char], readChar l)
    else if l.char = '"' then
      match readString l with
      | none => none
      | some (lit, l) =>
        some ({ t with Typ := TokenType.String, Literal := lit, Line := l.line,
                       Start := l.position, End := l.position + 1 }, readChar l)
    else if l.char = NUL then
      some ({ t with Literal := "", Typ := TokenType.EOF, Line := l.line }, readChar l)
    else if isLetter l.char then
      let start := l.position
      match readIdentifier l with
      | none => none
      | some (ident, l) =>
        let t := { t with Start := start, Literal := ident, Line := l.line, End := l.position }
        match LookupIdentifier ident with
        | (_, some _) => some ({ t with Typ := TokenType.Illegal }, l)
        | (tokenType, none) => some ({ t with Typ := tokenType, End := l.position }, l)
    else if isNumber l.char then
      let start := l.position
      match readNumber l with
      | none => none
      | some (lit, l) =>
        some ({ t with Start := start, Literal := lit, Typ := TokenType.Number,
                       Line := l.line, End := l.position }, l)
    else
      some (newToken TokenType.Illegal l.line 1 2 [l.char], readChar l)

/-- The driver a caller runs: `n` successive `NextToken` calls on one lexer,
giving the tokens in order and the final lexer state. -/
def run : Nat → Lexer → Option (List Token × Lexer)
  | 0, l => some ([], l)
  | n + 1, l =>
    match NextToken l with
    | none => none
    | some (t, l) =>
      match run n l with
      | none => none
      | some (ts, l) => some (t :: ts, l)

/-- Kind and literal of every token of a run. -/
def kindsAndLiterals (r : Option (List Token × Lexer)) : Option (List (TokenType × String)) :=
  r.map fun p => p.1.map fun t => (t.Typ, t.Literal)

/-- Cursor invariant of every lexer that `New` and `NextToken` produce:
`readPosition` is one past `position`, and `char` is the rune at `position`
(NUL once `position` is outside the input). -/
def Lexer.WF (l : Lexer) : Prop :=
  l.readPosition = l.position + 1 ∧ l.char = l.Input.getD l.position NUL

instance (l : Lexer) : Decidable l.WF := by
  unfold Lexer.WF
  exact inferInstance

/-- The well-formed lexer state over `inp` with cursor `p` and line counter `ln`. -/
def seat (inp : List Char) (p ln : Nat) : Lexer :=
  { Input := inp, char := inp.getD p NUL, position := p, readPosition := p + 1, line := ln }

/-- The input holds no NUL rune. -/
def NoNUL (inp : List Char) : Prop := ∀ c ∈ inp, c ≠ NUL

instance (inp : List Char) : Decidable (NoNUL inp) := by
  unfold NoNUL
  exact inferInstance

/-- Length of the whitespace run at index `p`. -/
def wsLen (inp : List Char) (p : Nat) : Nat :=
  ((inp.drop p).takeWhile isWhitespace).length

/-- Number of newlines in the whitespace run at index `p`. -/
def wsNewlines (inp : List Char) (p : Nat) : Nat :=
  ((inp.drop p).takeWhile isWhitespace).count '\n'

/-- The six punctuation runes. -/
def isPunct (c : Char) : Bool :=
  c == '\x7b' || c == '\x7d' || c == '[' || c == ']' || c == ':' || c == ','

/-- The kind the specification assigns to a punctuation rune. -/
def punctKind (c : Char) : TokenType :=
  if c = '\x7b' then TokenType.LeftBrace
  else if c = '\x7d' then TokenType.RightBrace
  else if c = '[' then TokenType.LeftBracket
  else if c = ']' then TokenType.RightBracket
  else if c = ':' then TokenType.Colon
  else if c = ',' then TokenType.Comma
  else TokenType.Illegal

/-- The string scan started before index `j` stops on reaching `j`: the rune at
`j` is a quote not preceded by a backslash, or it is the NUL sentinel. -/
def stopAt (inp : List Char) (j : Nat) : Prop :=
  (inp.getD j NUL = '"' ∧ inp.getD (j - 1) NUL ≠ '\\') ∨ inp.getD j NUL = NUL

instance (inp : List Char) (j : Nat) : Decidable (stopAt inp j) := by
  unfold stopAt
  exact inferInstance

/-- What the identifier branch of `NextToken` delivers, for the call made in
state `l` whose whitespace skip ends in state `l1` at index `p = l1.position`:
with `w` the maximal run of lowercase letters of the input at `p`, the token's
literal is `w`, its span is `[p, p + |w|)`, its kind is looked up from the
literal, and the cursor is left on index `p + |w|`, whose rune is no letter. -/
def IdentifierPost (l l1 : Lexer) : Prop :=
  ∃ t l2, NextToken l = some (t, l2) ∧
    t.Literal = String.mk ((l1.Input.drop l1.position).takeWhile isLetter) ∧
    t.Start = l1.position ∧
    t.End = l1.position + ((l1.Input.drop l1.position).takeWhile isLetter).length ∧
    t.Typ = (if t.Literal = "true" then TokenType.True
             else if t.Literal = "false" then TokenType.False
             else if t.Literal = "null" then TokenType.Null
             else TokenType.Illegal) ∧
    l2.Input = l.Input ∧
    l2.position = l1.position + ((l1.Input.drop l1.position).takeWhile isLetter).length ∧
    l2.char = l.Input.getD l2.position NUL ∧
    l2.readPosition = l2.position + 1 ∧
    isLetter l2.char = false

/-- What the number branch of `NextToken` delivers, for the call made in state
`l` whose whitespace skip ends in state `l1` at index `p = l1.position`: with
`r` the maximal run at `p` of runes that are a digit, `.` or `-`, the token is
a `Number` with literal `r` and span `[p, p + |r|)`, and the cursor is left on
index `p + |r|`, whose rune is outside the number alphabet. -/
def NumberPost (l l1 : Lexer) : Prop :=
  ∃ t l2, NextToken l = some (t, l2) ∧
    t.Typ = TokenType.Number ∧
    t.Literal = String.mk ((l1.Input.drop l1.position).takeWhile isNumber) ∧
    t.Start = l1.position ∧
    t.End = l1.position + ((l1.Input.drop l1.position).takeWhile isNumber).length ∧
    l2.Input = l.Input ∧
    l2.position = l1.position + ((l1.Input.drop l1.position).takeWhile isNumber).length ∧
    l2.char = l.Input.getD l2.position NUL ∧
    l2.readPosition = l2.position + 1 ∧
    isNumber l2.char = false

/-- The specification's reading of a punctuation-and-whitespace input: the
whitespace removed, each remaining rune mapped to its kind. -/
def punctuationKinds (cs : List Char) : List TokenType :=
  (cs.filter fun c => !isWhitespace c).map punctKind

/-- The condition the specification gives for the end `j` of a string scan:
`j` is the end of the input, or the rune at `j` is a quote whose predecessor
is not a backslash. -/
def StringEnd (inp : List Char) (j : Nat) : Prop :=
  j = inp.length ∨ (inp[j]? = some '"' ∧ inp[j - 1]? ≠ some '\\')

/-- What the string branch of `NextToken` delivers, for the call made in state
`l` whose whitespace skip ends in state `l1` on the opening quote at index
`p = l1.position`: with `q` the least index above `p` that satisfies
`StringEnd`, the token is a `String` whose literal is the raw input slice
`Input[p+1 .. q)`, and the cursor is left on index `q + 1`. -/
def StringPost (l l1 : Lexer) : Prop :=
  ∃ q t l2, NextToken l = some (t, l2) ∧
    l1.position < q ∧ StringEnd l.Input q ∧
    (∀ j, l1.position < j → j < q → ¬ StringEnd l.Input j) ∧
    t.Typ = TokenType.String ∧
    t.Literal = String.mk ((l.Input.drop (l1.position + 1)).take (q - (l1.position + 1))) ∧
    l2.Input = l.Input ∧
    l2.position = q + 1 ∧
    l2.char = l.Input.getD l2.position NUL ∧
    l2.readPosition = l2.position + 1

/-- What the catch-all branch of `NextToken` delivers, for the call made in
state `l` whose whitespace skip ends in state `l1`: an `Illegal` token whose
literal is the one rune under the cursor, on the current line, with the fixed
span `(1, 2)`, and a cursor moved on by exactly one rune. -/
def CatchAllPost (l l1 : Lexer) : Prop :=
  ∃ t l2, NextToken l = some (t, l2) ∧
    t.Typ = TokenType.Illegal ∧
    t.Literal = String.mk [l1.char] ∧
    t.Line = l1.line ∧
    t.Start = 1 ∧
    t.End = 2 ∧
    l2.Input = l.Input ∧
    l2.position = l1.position + 1 ∧
    l2.char = l.Input.getD l2.position NUL ∧
    l2.readPosition = l2.position + 1 ∧
    l2.line = l1.line

/-- What a punctuation branch of `NextToken` delivers, for the call made in
state `l` whose whitespace skip ends in state `l1` at index `p = l1.position`:
a token of the kind of the rune under the cursor, whose literal is that one
rune, on the current line, with span `[p, p + 1)` (the input slice of that
span is the literal), and a cursor moved on by exactly one rune. -/
def PunctPost (l l1 : Lexer) : Prop :=
  ∃ t l2, NextToken l = some (t, l2) ∧
    t.Typ = punctKind l1.char ∧
    t.Literal = String.mk [l1.char] ∧
    t.Line = l1.line ∧
    t.Start = l1.position ∧
    t.End = l1.position + 1 ∧
    slice l.Input t.Start t.End = some t.Literal.data ∧
    l2.Input = l.Input ∧
    l2.position = l1.position + 1 ∧
    l2.char = l.Input.getD l2.position NUL ∧
    l2.readPosition = l2.position + 1 ∧
    l2.line = l1.line

/-- What `skipWhitespace` does from state `l` at index `p = l.position`: with
`k = wsLen` the length of the maximal whitespace run at `p`, the cursor ends
on index `p + k`, `line` grows by the number of newlines of that run, the rune
under the cursor is no whitespace, and nothing changes when `k = 0`. -/
def SkipPost (l : Lexer) : Prop :=
  ∃ l1, skipWhitespace l = some l1 ∧
    l1.Input = l.Input ∧
    l1.position = l.position + wsLen l.Input l.position ∧
    l1.line = l.line + wsNewlines l.Input l.position ∧
    l1.char = l.Input.getD l1.position NUL ∧
    l1.readPosition = l1.position + 1 ∧
    isWhitespace l1.char = false ∧
    (wsLen l.Input l.position = 0 → l1 = l)

/-- The rune sequences of the literals of a token list, concatenated. -/
def literals : List Token → List Char
  | [] => []
  | t :: ts => t.Literal.data ++ literals ts

/-- Absence of out-of-range access in state `l`: `NextToken` returns a token
and keeps the cursor invariant; `readChar` reads `Input[readPosition]` only
when `readPosition < len(Input)`; and each of `readString`, `readNumber`,
`readIdentifier`, when `NextToken` would call it, returns with its slice
bounds `a ≤ b ≤ len(Input)`. -/
def SafePost (l : Lexer) : Prop :=
  (∃ t l2, NextToken l = some (t, l2) ∧ l2.WF ∧ l2.Input = l.Input) ∧
  ((∀ h : l.readPosition < l.Input.length,
      (readChar l).char = l.Input.get ⟨l.readPosition, h⟩) ∧
    (l.Input.length ≤ l.readPosition → (readChar l).char = NUL)) ∧
  (l.char = '"' → ∃ lit l2, readString l = some (lit, l2) ∧
    l.position + 1 ≤ l2.position ∧ l2.position ≤ l.Input.length) ∧
  (isNumber l.char = true → ∃ lit l2, readNumber l = some (lit, l2) ∧
    l.position ≤ l2.position ∧ l2.position ≤ l.Input.length) ∧
  (isLetter l.char = true → ∃ lit l2, readIdentifier l = some (lit, l2) ∧
    l.position ≤ l2.position ∧ l2.position ≤ l.Input.length)

/-! ## Basic cursor lemmas -/

theorem getD_of_le (inp : List Char) (p : Nat) (h : inp.length ≤ p) : inp.getD p NUL = NUL := by
  simp [List.getD, List.getElem?_eq_none h]

theorem getD_of_lt (inp : List Char) (p : Nat) (h : p < inp.length) :
    inp.getD p NUL = inp.get ⟨p, h⟩ := by
  simp [List.getD, List.getElem?_eq_getElem h]

theorem drop_eq_getD_cons (inp : List Char) (p : Nat) (h : p < inp.length) :
    inp.drop p = inp.getD p NUL :: inp.drop (p + 1) := by
  rw [getD_of_lt inp p h]
  simp

theorem lt_of_getD_ne (inp : List Char) (p : Nat) (h : inp.getD p NUL ≠ NUL) :
    p < inp.length := by
  by_contra hlt
  exact h (getD_of_le inp p (Nat.le_of_not_lt hlt))

theorem readChar_eq (l : Lexer) :
    readChar l = { l with char := l.Input.getD l.readPosition NUL,
                          position := l.readPosition,
                          readPosition := l.readPosition + 1 } := by
  unfold readChar
  by_cases h : l.readPosition ≥ l.Input.length
  · rw [getD_of_le l.Input l.readPosition h, dif_pos h]
  · rw [getD_of_lt l.Input l.readPosition (Nat.lt_of_not_le h), dif_neg h]

theorem readChar_seat (inp : List Char) (p ln : Nat) :
    readChar (seat inp p ln) = seat inp (p + 1) ln := by
  rw [readChar_eq]
  rfl

theorem seat_of_WF (l : Lexer) (h : l.WF) : l = seat l.Input l.position l.line := by
  obtain ⟨h1, h2⟩ := h
  cases l
  simp only [seat] at *
  rw [h1, h2]

theorem WF_seat (inp : List Char) (p ln : Nat) : (seat inp p ln).WF :=
  ⟨rfl, rfl⟩

theorem New_eq_seat (input : String) : New input = seat input.data 0 0 := by
  unfold New
  rw [readChar_eq]
  rfl

/-! ## Maximal runs and the three scanning loops -/

theorem isNumber_NUL : isNumber NUL = false := by decide

theorem isLetter_NUL : isLetter NUL = false := by decide

theorem isWhitespace_NUL : isWhitespace NUL = false := by decide

theorem takeWhile_drop_pos (pr : Char → Bool) (h0 : pr NUL = false) (inp : List Char) (p : Nat)
    (h : pr (inp.getD p NUL) = true) :
    (inp.drop p).takeWhile pr = inp.getD p NUL :: (inp.drop (p + 1)).takeWhile pr := by
  have hp : p < inp.length := by
    apply lt_of_getD_ne
    intro hn
    rw [hn, h0] at h
    exact Bool.noConfusion h
  rw [drop_eq_getD_cons inp p hp, List.takeWhile_cons, h]
  simp

theorem takeWhile_drop_neg (pr : Char → Bool) (inp : List Char) (p : Nat)
    (h : pr (inp.getD p NUL) = false) :
    (inp.drop p).takeWhile pr = [] := by
  by_cases hp : p < inp.length
  · rw [drop_eq_getD_cons inp p hp, List.takeWhile_cons, h]
    simp
  · rw [List.drop_eq_nil_of_le (Nat.le_of_not_lt hp)]
    rfl

theorem takeWhile_drop_length_le (pr : Char → Bool) (inp : List Char) (p : Nat) :
    p + ((inp.drop p).takeWhile pr).length ≤ max p inp.length := by
  have h1 : ((inp.drop p).takeWhile pr).length ≤ (inp.drop p).length :=
    (List.takeWhile_sublist pr).length_le
  rw [List.length_drop] at h1
  omega

theorem take_length_takeWhile (pr : Char → Bool) (xs : List Char) :
    xs.take (xs.takeWhile pr).length = xs.takeWhile pr :=
  ((List.prefix_iff_eq_take).1 (List.takeWhile_prefix pr)).symm

theorem slice_run (pr : Char → Bool) (inp : List Char) (p : Nat) (hp : p ≤ inp.length) :
    slice inp p (p + ((inp.drop p).takeWhile pr).length) = some ((inp.drop p).takeWhile pr) := by
  have h1 := takeWhile_drop_length_le pr inp p
  unfold slice
  rw [if_pos ⟨Nat.le_add_right _ _, by omega⟩, Nat.add_sub_cancel_left, take_length_takeWhile]

theorem readNumberLoop_seat (inp : List Char) (ln : Nat) :
    ∀ (fuel p : Nat), ((inp.drop p).takeWhile isNumber).length < fuel →
      readNumberLoop fuel (seat inp p ln) =
        some (seat inp (p + ((inp.drop p).takeWhile isNumber).length) ln) := by
  intro fuel
  induction fuel with
  | zero => intro p h; exact absurd h (Nat.not_lt_zero _)
  | succ fuel ih =>
    intro p h
    unfold readNumberLoop
    by_cases hc : isNumber (inp.getD p NUL) = true
    · have hc2 : isNumber (seat inp p ln).char = true := hc
      rw [if_pos hc2, readChar_seat]
      rw [takeWhile_drop_pos isNumber isNumber_NUL inp p hc] at h ⊢
      rw [List.length_cons] at h ⊢
      rw [ih (p + 1) (Nat.lt_of_succ_lt_succ h)]
      congr 2
      omega
    · have hc1 : isNumber (inp.getD p NUL) = false := by simpa using hc
      have hc2 : ¬ isNumber (seat inp p ln).char = true := hc
      rw [if_neg hc2, takeWhile_drop_neg isNumber inp p hc1]
      rfl

theorem readIdentifierLoop_seat (inp : List Char) (ln : Nat) :
    ∀ (fuel p : Nat), ((inp.drop p).takeWhile isLetter).length < fuel →
      readIdentifierLoop fuel (seat inp p ln) =
        some (seat inp (p + ((inp.drop p).takeWhile isLetter).length) ln) := by
  intro fuel
  induction fuel with
  | zero => intro p h; exact absurd h (Nat.not_lt_zero _)
  | succ fuel ih =>
    intro p h
    unfold readIdentifierLoop
    by_cases hc : isLetter (inp.getD p NUL) = true
    · have hc2 : isLetter (seat inp p ln).char = true := hc
      rw [if_pos hc2, readChar_seat]
      rw [takeWhile_drop_pos isLetter isLetter_NUL inp p hc] at h ⊢
      rw [List.length_cons] at h ⊢
      rw [ih (p + 1) (Nat.lt_of_succ_lt_succ h)]
      congr 2
      omega
    · have hc1 : isLetter (inp.getD p NUL) = false := by simpa using hc
      have hc2 : ¬ isLetter (seat inp p ln).char = true := hc
      rw [if_neg hc2, takeWhile_drop_neg isLetter inp p hc1]
      rfl

theorem run_fuel_ok (pr : Char → Bool) (inp : List Char) (p : Nat) :
    ((inp.drop p).takeWhile pr).length < inp.length + 2 := by
  have h1 : ((inp.drop p).takeWhile pr).length ≤ (inp.drop p).length :=
    (List.takeWhile_sublist pr).length_le
  rw [List.length_drop] at h1
  omega

theorem readNumber_seat (inp : List Char) (p ln : Nat) (hp : p ≤ inp.length) :
    readNumber (seat inp p ln) =
      some (String.mk ((inp.drop p).takeWhile isNumber),
            seat inp (p + ((inp.drop p).takeWhile isNumber).length) ln) := by
  unfold readNumber
  have h := readNumberLoop_seat inp ln (inp.length + 2) p (run_fuel_ok isNumber inp p)
  have e1 : (seat inp p ln).Input = inp := rfl
  have e2 : (seat inp p ln).position = p := rfl
  simp only [e1, e2, h]
  have e3 : (seat inp (p + ((inp.drop p).takeWhile isNumber).length) ln).Input = inp := rfl
  have e4 : (seat inp (p + ((inp.drop p).takeWhile isNumber).length) ln).position
      = p + ((inp.drop p).takeWhile isNumber).length := rfl
  simp only [e3, e4, slice_run isNumber inp p hp]

theorem readIdentifier_seat (inp : List Char) (p ln : Nat) (hp : p ≤ inp.length) :
    readIdentifier (seat inp p ln) =
      some (String.mk ((inp.drop p).takeWhile isLetter),
            seat inp (p + ((inp.drop p).takeWhile isLetter).length) ln) := by
  unfold readIdentifier
  have h := readIdentifierLoop_seat inp ln (inp.length + 2) p (run_fuel_ok isLetter inp p)
  have e1 : (seat inp p ln).Input = inp := rfl
  have e2 : (seat inp p ln).position = p := rfl
  simp only [e1, e2, h]
  have e3 : (seat inp (p + ((inp.drop p).takeWhile isLetter).length) ln).Input = inp := rfl
  have e4 : (seat inp (p + ((inp.drop p).takeWhile isLetter).length) ln).position
      = p + ((inp.drop p).takeWhile isLetter).length := rfl
  simp only [e3, e4, slice_run isLetter inp p hp]

theorem skipWhitespaceLoop_seat (inp : List Char) :
    ∀ (fuel p ln : Nat), ((inp.drop p).takeWhile isWhitespace).length < fuel →
      skipWhitespaceLoop fuel (seat inp p ln) =
        some (seat inp (p + ((inp.drop p).takeWhile isWhitespace).length)
                (ln + ((inp.drop p).takeWhile isWhitespace).count '\n')) := by
  intro fuel
  induction fuel with
  | zero => intro p ln h; exact absurd h (Nat.not_lt_zero _)
  | succ fuel ih =>
    intro p ln h
    unfold skipWhitespaceLoop
    by_cases hc : isWhitespace (inp.getD p NUL) = true
    · have hc2 : isWhitespace (seat inp p ln).char = true := hc
      rw [if_pos hc2]
      rw [takeWhile_drop_pos isWhitespace isWhitespace_NUL inp p hc] at h ⊢
      rw [List.length_cons] at h ⊢
      have hlt := Nat.lt_of_succ_lt_succ h
      by_cases hnl : inp.getD p NUL = '\n'
      · have hnl2 : (seat inp p ln).char = '\n' := hnl
        simp only [if_pos hnl2]
        change skipWhitespaceLoop fuel (readChar (seat inp p (ln + 1))) = _
        rw [readChar_seat, ih (p + 1) (ln + 1) hlt, hnl, List.count_cons_self]
        congr 2 <;> omega
      · have hnl2 : ¬ (seat inp p ln).char = '\n' := hnl
        simp only [if_neg hnl2]
        rw [readChar_seat, ih (p + 1) ln hlt, List.count_cons_of_ne (Ne.symm hnl)]
        congr 2
        omega
    · have hc1 : isWhitespace (inp.getD p NUL) = false := by simpa using hc
      have hc2 : ¬ isWhitespace (seat inp p ln).char = true := hc
      rw [if_neg hc2, takeWhile_drop_neg isWhitespace inp p hc1]
      rfl

theorem skipWhitespace_seat (inp : List Char) (p ln : Nat) :
    skipWhitespace (seat inp p ln) =
      some (seat inp (p + wsLen inp p) (ln + wsNewlines inp p)) :=
  skipWhitespaceLoop_seat inp (inp.length + 2) p ln (run_fuel_ok isWhitespace inp p)

theorem getD_after_run (pr : Char → Bool) (inp : List Char) :
    ∀ (n p : Nat), ((inp.drop p).takeWhile pr).length = n →
      pr (inp.getD (p + n) NUL) = false ∨ pr NUL = true := by
  intro n
  induction n with
  | zero =>
    intro p h
    by_cases h0 : pr NUL = true
    · exact Or.inr h0
    · left
      by_cases hc : pr (inp.getD p NUL) = true
      · rw [takeWhile_drop_pos pr (by simpa using h0) inp p hc] at h
        simp at h
      · simpa using hc
  | succ n ih =>
    intro p h
    by_cases h0 : pr NUL = true
    · exact Or.inr h0
    · by_cases hc : pr (inp.getD p NUL) = true
      · rw [takeWhile_drop_pos pr (by simpa using h0) inp p hc, List.length_cons] at h
        have := ih (p + 1) (Nat.succ_injective h)
        rw [show p + (n + 1) = p + 1 + n by omega]
        exact this
      · rw [takeWhile_drop_neg pr inp p (by simpa using hc)] at h
        simp at h

theorem not_ws_after_skip (inp : List Char) (p : Nat) :
    isWhitespace (inp.getD (p + wsLen inp p) NUL) = false := by
  rcases getD_after_run isWhitespace inp (wsLen inp p) p rfl with h | h
  · exact h
  · rw [isWhitespace_NUL] at h
    exact Bool.noConfusion h

/-! ## One `NextToken` call from a well-formed state -/

theorem isPunct_cases (c : Char) (h : isPunct c = true) :
    c = '\x7b' ∨ c = '\x7d' ∨ c = '[' ∨ c = ']' ∨ c = ':' ∨ c = ',' := by
  simpa [isPunct, or_assoc] using h

theorem NextToken_punct (l l1 : Lexer) (hs : skipWhitespace l = some l1)
    (hc : isPunct l1.char = true) :
    NextToken l =
      some ({ Typ := punctKind l1.char, Literal := String.mk [l1.char], Line := l1.line,
              Start := l1.position, End := l1.position + 1 }, readChar l1) := by
  unfold NextToken
  rw [hs]
  rcases isPunct_cases _ hc with h | h | h | h | h | h <;>
    simp [h, newToken, punctKind]

theorem letter_not (c : Char) (h : isLetter c = true) :
    c ≠ '\x7b' ∧ c ≠ '\x7d' ∧ c ≠ '[' ∧ c ≠ ']' ∧ c ≠ ':' ∧ c ≠ ',' ∧ c ≠ '"' ∧ c ≠ NUL := by
  refine ⟨?_, ?_, ?_, ?_, ?_, ?_, ?_, ?_⟩ <;>
    (intro e; rw [e] at h; revert h; decide)

theorem number_not (c : Char) (h : isNumber c = true) :
    c ≠ '\x7b' ∧ c ≠ '\x7d' ∧ c ≠ '[' ∧ c ≠ ']' ∧ c ≠ ':' ∧ c ≠ ',' ∧ c ≠ '"' ∧ c ≠ NUL
      ∧ isLetter c = false := by
  refine ⟨?_, ?_, ?_, ?_, ?_, ?_, ?_, ?_, ?_⟩
  · intro e; rw [e] at h; revert h; decide
  · intro e; rw [e] at h; revert h; decide
  · intro e; rw [e] at h; revert h; decide
  · intro e; rw [e] at h; revert h; decide
  · intro e; rw [e] at h; revert h; decide
  · intro e; rw [e] at h; revert h; decide
  · intro e; rw [e] at h; revert h; decide
  · intro e; rw [e] at h; revert h; decide
  · simp only [isNumber, isLetter, Bool.or_eq_true, Bool.and_eq_true, decide_eq_true_eq,
      beq_iff_eq] at h ⊢
    rcases h with (⟨h1, h2⟩ | h) | h
    · have h3 : c.toNat ≤ 57 := h2
      simp only [Bool.and_eq_false_imp, decide_eq_true_eq, decide_eq_false_iff_not]
      intro h4 h5
      have h6 : 97 ≤ c.toNat := h4
      omega
    · rw [h]; decide
    · rw [h]; decide

theorem quote_not (c : Char) (h : c = '"') :
    c ≠ '\x7b' ∧ c ≠ '\x7d' ∧ c ≠ '[' ∧ c ≠ ']' ∧ c ≠ ':' ∧ c ≠ ',' := by
  subst h
  decide

theorem NUL_not (c : Char) (h : c = NUL) :
    c ≠ '\x7b' ∧ c ≠ '\x7d' ∧ c ≠ '[' ∧ c ≠ ']' ∧ c ≠ ':' ∧ c ≠ ',' ∧ c ≠ '"' := by
  subst h
  decide

theorem NextToken_EOF (l l1 : Lexer) (hs : skipWhitespace l = some l1) (hc : l1.char = NUL) :
    NextToken l =
      some ({ Typ := TokenType.EOF, Literal := "", Line := l1.line, Start := 0, End := 0 },
            readChar l1) := by
  obtain ⟨n1, n2, n3, n4, n5, n6, n7⟩ := NUL_not _ hc
  unfold NextToken
  rw [hs]
  simp only [if_neg n1, if_neg n2, if_neg n3, if_neg n4, if_neg n5, if_neg n6, if_neg n7,
    if_pos hc]

theorem NextToken_string (l l1 l2 : Lexer) (lit : String) (hs : skipWhitespace l = some l1)
    (hc : l1.char = '"') (hr : readString l1 = some (lit, l2)) :
    NextToken l =
      some ({ Typ := TokenType.String, Literal := lit, Line := l2.line,
              Start := l2.position, End := l2.position + 1 }, readChar l2) := by
  obtain ⟨n1, n2, n3, n4, n5, n6⟩ := quote_not _ hc
  unfold NextToken
  rw [hs]
  simp only [if_neg n1, if_neg n2, if_neg n3, if_neg n4, if_neg n5, if_neg n6, if_pos hc, hr]

/-- The kind `NextToken` gives an identifier after `LookupIdentifier`. -/
theorem NextToken_identifier (l l1 l2 : Lexer) (ident : String)
    (hs : skipWhitespace l = some l1) (hc : isLetter l1.char = true)
    (hr : readIdentifier l1 = some (ident, l2)) :
    NextToken l =
      some ({ Typ := if (LookupIdentifier ident).2.isSome then TokenType.Illegal
                     else (LookupIdentifier ident).1,
              Literal := ident, Line := l2.line,
              Start := l1.position, End := l2.position }, l2) := by
  obtain ⟨n1, n2, n3, n4, n5, n6, n7, n8⟩ := letter_not _ hc
  unfold NextToken
  rw [hs]
  simp only [if_neg n1, if_neg n2, if_neg n3, if_neg n4, if_neg n5, if_neg n6, if_neg n7,
    if_neg n8, if_pos hc, hr]
  rcases hL : LookupIdentifier ident with ⟨ty, _ | msg⟩ <;> simp

theorem NextToken_number (l l1 l2 : Lexer) (lit : String)
    (hs : skipWhitespace l = some l1) (hc : isNumber l1.char = true)
    (hr : readNumber l1 = some (lit, l2)) :
    NextToken l =
      some ({ Typ := TokenType.Number, Literal := lit, Line := l2.line,
              Start := l1.position, End := l2.position }, l2) := by
  obtain ⟨n1, n2, n3, n4, n5, n6, n7, n8, n9⟩ := number_not _ hc
  have n9b : ¬ isLetter l1.char = true := by simp [n9]
  unfold NextToken
  rw [hs]
  simp only [if_neg n1, if_neg n2, if_neg n3, if_neg n4, if_neg n5, if_neg n6, if_neg n7,
    if_neg n8, if_neg n9b, if_pos hc, hr]

theorem NextToken_other (l l1 : Lexer) (hs : skipWhitespace l = some l1)
    (h1 : isPunct l1.char = false) (h2 : l1.char ≠ '"') (h3 : l1.char ≠ NUL)
    (h4 : isLetter l1.char = false) (h5 : isNumber l1.char = false) :
    NextToken l =
      some ({ Typ := TokenType.Illegal, Literal := String.mk [l1.char], Line := l1.line,
              Start := 1, End := 2 }, readChar l1) := by
  simp only [isPunct, Bool.or_eq_false_iff, beq_eq_false_iff_ne, ne_eq] at h1
  obtain ⟨⟨⟨⟨⟨n1, n2⟩, n3⟩, n4⟩, n5⟩, n6⟩ := h1
  have h4b : ¬ isLetter l1.char = true := by simp [h4]
  have h5b : ¬ isNumber l1.char = true := by simp [h5]
  unfold NextToken
  rw [hs]
  simp only [if_neg n1, if_neg n2, if_neg n3, if_neg n4, if_neg n5, if_neg n6, if_neg h2,
    if_neg h3, if_neg h4b, if_neg h5b, newToken]

/-! ## The string scan -/

theorem readStringLoop_seat (inp : List Char) (ln : Nat) :
    ∀ (fuel i q : Nat), i < q → stopAt inp q → (∀ j, i < j → j < q → ¬ stopAt inp j) →
      q - i ≤ fuel → readStringLoop fuel (seat inp i ln) = some (seat inp q ln) := by
  intro fuel
  induction fuel with
  | zero => intro i q h1 _ _ h4; omega
  | succ fuel ih =>
    intro i q h1 h2 h3 h4
    unfold readStringLoop
    simp only [readChar_seat]
    have key : (((seat inp (i + 1) ln).char = '"' ∧ (seat inp i ln).char ≠ '\\')
        ∨ (seat inp (i + 1) ln).char = NUL) ↔ stopAt inp (i + 1) := Iff.rfl
    by_cases hq : q = i + 1
    · subst hq
      rw [if_pos (key.2 h2)]
    · have hs : ¬ stopAt inp (i + 1) := h3 (i + 1) (Nat.lt_succ_self i) (by omega)
      rw [if_neg (fun h => hs (key.1 h))]
      exact ih (i + 1) q (by omega) h2 (fun j hj1 hj2 => h3 j (by omega) hj2) (by omega)

theorem readString_seat (inp : List Char) (p ln q : Nat) (hpq : p < q) (hq : stopAt inp q)
    (hmin : ∀ j, p < j → j < q → ¬ stopAt inp j) (hql : q ≤ inp.length) :
    readString (seat inp p ln) =
      some (String.mk ((inp.drop (p + 1)).take (q - (p + 1))), seat inp q ln) := by
  unfold readString
  have h := readStringLoop_seat inp ln (inp.length + 2) p q hpq hq hmin (by omega)
  have e1 : (seat inp p ln).Input = inp := rfl
  have e2 : (seat inp p ln).position = p := rfl
  simp only [e1, e2, h]
  have e3 : (seat inp q ln).Input = inp := rfl
  have e4 : (seat inp q ln).position = q := rfl
  have hsl : slice inp (p + 1) q = some ((inp.drop (p + 1)).take (q - (p + 1))) := by
    unfold slice
    rw [if_pos ⟨hpq, hql⟩]
  simp only [e3, e4, hsl]

theorem exists_stop (inp : List Char) (p : Nat) (hp : p < inp.length) :
    ∃ q, p < q ∧ q ≤ inp.length ∧ stopAt inp q ∧ ∀ j, p < j → j < q → ¬ stopAt inp j := by
  have hex : ∃ q, p < q ∧ stopAt inp q :=
    ⟨inp.length, hp, Or.inr (getD_of_le inp inp.length (Nat.le_refl _))⟩
  refine ⟨Nat.find hex, (Nat.find_spec hex).1, ?_, (Nat.find_spec hex).2, ?_⟩
  · exact Nat.find_min' hex ⟨hp, Or.inr (getD_of_le inp inp.length (Nat.le_refl _))⟩
  · intro j hj1 hj2 hs
    exact Nat.find_min hex hj2 ⟨hj1, hs⟩

/-! ## Effect of one call and of a run of calls -/

theorem run_length_pos (pr : Char → Bool) (h0 : pr NUL = false) (inp : List Char) (p : Nat)
    (h : pr (inp.getD p NUL) = true) : 0 < ((inp.drop p).takeWhile pr).length := by
  rw [takeWhile_drop_pos pr h0 inp p h]
  exact Nat.succ_pos _

theorem punctKind_ne_EOF (c : Char) : punctKind c ≠ TokenType.EOF := by
  unfold punctKind
  repeat' split
  all_goals decide

theorem lookup_kind (ident : String) :
    (if (LookupIdentifier ident).2.isSome then TokenType.Illegal
     else (LookupIdentifier ident).1) =
    (if ident = "true" then TokenType.True
     else if ident = "false" then TokenType.False
     else if ident = "null" then TokenType.Null
     else TokenType.Illegal) := by
  unfold LookupIdentifier validJSONIdentifiers
  by_cases h1 : ident = "true"
  · subst h1; rfl
  · by_cases h2 : ident = "false"
    · subst h2; rfl
    · by_cases h3 : ident = "null"
      · subst h3; rfl
      · have b1 : (ident == "true") = false := by simpa using h1
        have b2 : (ident == "false") = false := by simpa using h2
        have b3 : (ident == "null") = false := by simpa using h3
        simp [List.lookup, h1, h2, h3, b1, b2, b3]

theorem lookup_kind_ne_EOF (ident : String) :
    (if (LookupIdentifier ident).2.isSome then TokenType.Illegal
     else (LookupIdentifier ident).1) ≠ TokenType.EOF := by
  rw [lookup_kind]
  repeat' split
  all_goals decide

/-- One call from a well-formed state: it returns, the state stays well formed
on the same input, the cursor moves forward, the token carries the line
reached by the whitespace skip, and only the NUL sentinel gives `EOF`. -/
theorem NextToken_step (inp : List Char) (p ln : Nat) :
    ∃ t p', NextToken (seat inp p ln) = some (t, seat inp p' (ln + wsNewlines inp p)) ∧
      t.Line = ln + wsNewlines inp p ∧ p + wsLen inp p < p' ∧
      (t.Typ = TokenType.EOF → inp.getD (p + wsLen inp p) NUL = NUL) := by
  have hs := skipWhitespace_seat inp p ln
  generalize hp1 : p + wsLen inp p = p1 at hs
  generalize hl1 : ln + wsNewlines inp p = ln1 at hs
  have ec : (seat inp p1 ln1).char = inp.getD p1 NUL := rfl
  by_cases c1 : isPunct (inp.getD p1 NUL) = true
  · refine ⟨{ Typ := punctKind (inp.getD p1 NUL), Literal := String.mk [inp.getD p1 NUL],
              Line := ln1, Start := p1, End := p1 + 1 }, p1 + 1, ?_, rfl, Nat.lt_succ_self _, ?_⟩
    · rw [NextToken_punct _ _ hs c1, readChar_seat]
      rfl
    · intro h; exact absurd h (punctKind_ne_EOF _)
  by_cases c2 : inp.getD p1 NUL = '"'
  · have hlt : p1 < inp.length := lt_of_getD_ne inp p1 (by rw [c2]; decide)
    obtain ⟨q, hq1, hq2, hq3, hq4⟩ := exists_stop inp p1 hlt
    refine ⟨{ Typ := TokenType.String,
              Literal := String.mk ((inp.drop (p1 + 1)).take (q - (p1 + 1))),
              Line := ln1, Start := q, End := q + 1 }, q + 1, ?_, rfl, by omega, ?_⟩
    · rw [NextToken_string _ _ _ _ hs c2 (readString_seat inp p1 ln1 q hq1 hq3 hq4 hq2),
        readChar_seat]
      rfl
    · intro h
      exact absurd (show TokenType.String = TokenType.EOF from h) (by decide)
  by_cases c3 : inp.getD p1 NUL = NUL
  · refine ⟨{ Typ := TokenType.EOF, Literal := "", Line := ln1, Start := 0, End := 0 },
      p1 + 1, ?_, rfl, Nat.lt_succ_self _, fun _ => c3⟩
    rw [NextToken_EOF _ _ hs c3, readChar_seat]
    rfl
  have hlt : p1 < inp.length := lt_of_getD_ne inp p1 c3
  by_cases c4 : isLetter (inp.getD p1 NUL) = true
  · refine ⟨{ Typ := if (LookupIdentifier (String.mk ((inp.drop p1).takeWhile isLetter))).2.isSome
                     then TokenType.Illegal
                     else (LookupIdentifier (String.mk ((inp.drop p1).takeWhile isLetter))).1,
              Literal := String.mk ((inp.drop p1).takeWhile isLetter),
              Line := ln1, Start := p1,
              End := p1 + ((inp.drop p1).takeWhile isLetter).length },
      p1 + ((inp.drop p1).takeWhile isLetter).length, ?_, rfl, ?_, ?_⟩
    · rw [NextToken_identifier _ _ _ _ hs c4 (readIdentifier_seat inp p1 ln1 (Nat.le_of_lt hlt))]
      rfl
    · have := run_length_pos isLetter isLetter_NUL inp p1 c4
      omega
    · intro h; exact absurd h (lookup_kind_ne_EOF _)
  by_cases c5 : isNumber (inp.getD p1 NUL) = true
  · refine ⟨{ Typ := TokenType.Number,
              Literal := String.mk ((inp.drop p1).takeWhile isNumber),
              Line := ln1, Start := p1,
              End := p1 + ((inp.drop p1).takeWhile isNumber).length },
      p1 + ((inp.drop p1).takeWhile isNumber).length, ?_, rfl, ?_, ?_⟩
    · rw [NextToken_number _ _ _ _ hs c5 (readNumber_seat inp p1 ln1 (Nat.le_of_lt hlt))]
      rfl
    · have := run_length_pos isNumber isNumber_NUL inp p1 c5
      omega
    · intro h
      exact absurd (show TokenType.Number = TokenType.EOF from h) (by decide)
  · refine ⟨{ Typ := TokenType.Illegal, Literal := String.mk [inp.getD p1 NUL],
              Line := ln1, Start := 1, End := 2 }, p1 + 1, ?_, rfl, Nat.lt_succ_self _, ?_⟩
    · rw [NextToken_other _ _ hs (Bool.eq_false_iff.2 c1) c2 c3 (Bool.eq_false_iff.2 c4)
        (Bool.eq_false_iff.2 c5), readChar_seat]
      rfl
    · intro h
      exact absurd (show TokenType.Illegal = TokenType.EOF from h) (by decide)

theorem skip_of_WF (l l1 : Lexer) (hwf : l.WF) (hs : skipWhitespace l = some l1) :
    l1 = seat l.Input (l.position + wsLen l.Input l.position)
           (l.line + wsNewlines l.Input l.position) := by
  have h := skipWhitespace_seat l.Input l.position l.line
  rw [← seat_of_WF l hwf, hs] at h
  exact Option.some.inj h

/-! ## The claims -/

/-- C1: for the 7-character input `{"a":1}`, six successive `NextToken` calls
on `New(input)` return, in order, LeftBrace `{`, String `a`, Colon `:`,
Number `1`, RightBrace `}` and then EOF with the empty literal. -/
theorem C1_simple_object_stream :
    ("\x7b\"a\":1\x7d" : String).length = 7 ∧
    kindsAndLiterals (run 6 (New "\x7b\"a\":1\x7d")) =
      some [(TokenType.LeftBrace, "\x7b"), (TokenType.String, "a"), (TokenType.Colon, ":"),
            (TokenType.Number, "1"), (TokenType.RightBrace, "\x7d"), (TokenType.EOF, "")] := by
  constructor <;> decide

theorem identifier_post (l l1 : Lexer) (hwf : l.WF) (hs : skipWhitespace l = some l1)
    (hc : isLetter l1.char = true) : IdentifierPost l l1 := by
  have h1 := skip_of_WF l l1 hwf hs
  generalize l.position + wsLen l.Input l.position = p1 at h1
  generalize l.line + wsNewlines l.Input l.position = ln1 at h1
  subst h1
  have hc2 : isLetter (l.Input.getD p1 NUL) = true := hc
  have hlt : p1 < l.Input.length :=
    lt_of_getD_ne l.Input p1 (letter_not _ hc2).2.2.2.2.2.2.2
  have hN := NextToken_identifier l _ _ _ hs hc
    (readIdentifier_seat l.Input p1 ln1 (Nat.le_of_lt hlt))
  refine ⟨_, _, hN, rfl, rfl, rfl, lookup_kind _, rfl, rfl, rfl, rfl, ?_⟩
  rcases getD_after_run isLetter l.Input _ p1 rfl with h | h
  · exact h
  · rw [isLetter_NUL] at h
    exact Bool.noConfusion h

theorem number_post (l l1 : Lexer) (hwf : l.WF) (hs : skipWhitespace l = some l1)
    (hc : isNumber l1.char = true) : NumberPost l l1 := by
  have h1 := skip_of_WF l l1 hwf hs
  generalize l.position + wsLen l.Input l.position = p1 at h1
  generalize l.line + wsNewlines l.Input l.position = ln1 at h1
  subst h1
  have hc2 : isNumber (l.Input.getD p1 NUL) = true := hc
  have hlt : p1 < l.Input.length :=
    lt_of_getD_ne l.Input p1 (number_not _ hc2).2.2.2.2.2.2.2.1
  have hN := NextToken_number l _ _ _ hs hc
    (readNumber_seat l.Input p1 ln1 (Nat.le_of_lt hlt))
  refine ⟨_, _, hN, rfl, rfl, rfl, rfl, rfl, rfl, rfl, rfl, ?_⟩
  rcases getD_after_run isNumber l.Input _ p1 rfl with h | h
  · exact h
  · rw [isNumber_NUL] at h
    exact Bool.noConfusion h

/-- C3: in every well-formed lexer state whose whitespace skip ends on a
lowercase ASCII letter at index `p`, `NextToken` returns the token whose
literal is the maximal run `w` of lowercase letters at `p`, with span
`[p, p + |w|)` and kind TRUE, FALSE, NULL for `true`, `false`, `null` and
ILLEGAL for every other word, leaving the cursor on index `p + |w|`; and the
input `true false null` yields TRUE, FALSE, NULL, EOF with literals `true`,
`false`, `null` and the empty string. -/
theorem C3_identifier_token :
    (∀ l l1 : Lexer, l.WF → skipWhitespace l = some l1 → isLetter l1.char = true →
      IdentifierPost l l1) ∧
    kindsAndLiterals (run 4 (New "true false null")) =
      some [(TokenType.True, "true"), (TokenType.False, "false"), (TokenType.Null, "null"),
            (TokenType.EOF, "")] :=
  ⟨identifier_post, by decide⟩

/-- C3, at the input `truex`: the whole word is one ILLEGAL token with span
`[0, 5)`. -/
theorem C3_identifier_token_witness :
    (New "truex").WF ∧ skipWhitespace (New "truex") = some (New "truex") ∧
    isLetter (New "truex").char = true ∧
    IdentifierPost (New "truex") (New "truex") ∧
    (NextToken (New "truex")).map Prod.fst =
      some { Typ := TokenType.Illegal, Literal := "truex", Line := 0, Start := 0, End := 5 } :=
  ⟨by decide, by decide, by decide,
   C3_identifier_token.1 (New "truex") (New "truex") (by decide) (by decide) (by decide),
   by decide⟩

/-- C4: in every well-formed lexer state whose whitespace skip ends at index
`p` on an ASCII digit, `.` or `-`, `NextToken` returns a Number token whose
literal is the maximal run `r` at `p` of digits, `.` and `-` (not validated
further), with span `[p, p + |r|)`, leaving the cursor on index `p + |r|`;
and the input `1.5` yields the Number `1.5` followed by EOF. -/
theorem C4_number_token :
    (∀ l l1 : Lexer, l.WF → skipWhitespace l = some l1 → isNumber l1.char = true →
      NumberPost l l1) ∧
    kindsAndLiterals (run 2 (New "1.5")) =
      some [(TokenType.Number, "1.5"), (TokenType.EOF, "")] :=
  ⟨number_post, by decide⟩

/-- C4, at the inputs `1.2.3`, `--5` and `.`: each is a single Number token. -/
theorem C4_number_token_witness :
    (New "1.2.3").WF ∧ skipWhitespace (New "1.2.3") = some (New "1.2.3") ∧
    isNumber (New "1.2.3").char = true ∧
    NumberPost (New "1.2.3") (New "1.2.3") ∧
    kindsAndLiterals (run 2 (New "1.2.3")) =
      some [(TokenType.Number, "1.2.3"), (TokenType.EOF, "")] ∧
    kindsAndLiterals (run 2 (New "--5")) =
      some [(TokenType.Number, "--5"), (TokenType.EOF, "")] ∧
    kindsAndLiterals (run 2 (New ".")) =
      some [(TokenType.Number, "."), (TokenType.EOF, "")] :=
  ⟨by decide, by decide, by decide,
   C4_number_token.1 (New "1.2.3") (New "1.2.3") (by decide) (by decide) (by decide),
   by decide, by decide, by decide⟩

/-! ## Inputs of punctuation and whitespace -/

theorem drop_length_takeWhile (pr : Char → Bool) (xs : List Char) :
    xs.drop (xs.takeWhile pr).length = xs.dropWhile pr := by
  induction xs with
  | nil => rfl
  | cons x xs ih =>
    by_cases h : pr x = true
    · simp [List.takeWhile_cons, List.dropWhile_cons, h, ih]
    · simp [List.takeWhile_cons, List.dropWhile_cons, h]

theorem drop_add_eq (inp : List Char) (p k : Nat) : inp.drop (p + k) = (inp.drop p).drop k := by
  rw [List.drop_drop, Nat.add_comm]

theorem drop_skip (inp : List Char) (p : Nat) :
    inp.drop (p + wsLen inp p) = (inp.drop p).dropWhile isWhitespace := by
  rw [drop_add_eq]
  exact drop_length_takeWhile isWhitespace (inp.drop p)

theorem punctuationKinds_dropWhile (xs : List Char) :
    punctuationKinds (xs.dropWhile isWhitespace) = punctuationKinds xs := by
  induction xs with
  | nil => rfl
  | cons x xs ih =>
    by_cases h : isWhitespace x = true
    · rw [List.dropWhile_cons, if_pos h, ih]
      simp [punctuationKinds, List.filter_cons, h]
    · rw [List.dropWhile_cons, if_neg h]

theorem punctuationKinds_cons (x : Char) (xs : List Char) (h : isWhitespace x = false) :
    punctuationKinds (x :: xs) = punctKind x :: punctuationKinds xs := by
  simp [punctuationKinds, List.filter_cons, h]

theorem run_one_EOF (inp : List Char) (p ln : Nat) (h : inp.length ≤ p + wsLen inp p) :
    run 1 (seat inp p ln) =
      some ([{ Typ := TokenType.EOF, Literal := "", Line := ln + wsNewlines inp p,
               Start := 0, End := 0 }],
            seat inp (p + wsLen inp p + 1) (ln + wsNewlines inp p)) := by
  have hN := NextToken_EOF _ _ (skipWhitespace_seat inp p ln) (getD_of_le inp _ h)
  rw [readChar_seat] at hN
  simp only [run, hN]
  rfl

theorem punct_run (inp : List Char) :
    ∀ (n p ln : Nat), (inp.drop p).length ≤ n →
      (∀ c ∈ inp.drop p, isPunct c = true ∨ isWhitespace c = true) →
      ∃ toks l, run ((punctuationKinds (inp.drop p)).length + 1) (seat inp p ln) = some (toks, l) ∧
        toks.map Token.Typ = punctuationKinds (inp.drop p) ++ [TokenType.EOF] := by
  intro n
  induction n with
  | zero =>
    intro p ln hn _
    have hnil : inp.drop p = [] := List.length_eq_zero.1 (Nat.le_zero.1 hn)
    have hle : inp.length ≤ p + wsLen inp p := by
      rw [List.length_drop] at hn
      omega
    rw [hnil]
    exact ⟨_, _, run_one_EOF inp p ln hle, rfl⟩
  | succ n ih =>
    intro p ln hn hall
    have hd := drop_skip inp p
    have hk := punctuationKinds_dropWhile (inp.drop p)
    rw [← hd] at hk
    by_cases hlt : p + wsLen inp p < inp.length
    · have hcons := drop_eq_getD_cons inp _ hlt
      have hnw := not_ws_after_skip inp p
      have hmem : inp.getD (p + wsLen inp p) NUL ∈ inp.drop p := by
        have : inp.getD (p + wsLen inp p) NUL ∈ inp.drop (p + wsLen inp p) := by
          rw [hcons]; exact List.mem_cons_self _ _
        rw [drop_add_eq] at this
        exact List.mem_of_mem_drop this
      have hp : isPunct (inp.getD (p + wsLen inp p) NUL) = true := by
        rcases hall _ hmem with h | h
        · exact h
        · rw [hnw] at h; exact Bool.noConfusion h
      have hN := NextToken_punct _ _ (skipWhitespace_seat inp p ln) hp
      rw [readChar_seat] at hN
      have hlen : (inp.drop (p + wsLen inp p + 1)).length ≤ n := by
        rw [List.length_drop] at hn ⊢
        omega
      have hall2 : ∀ c ∈ inp.drop (p + wsLen inp p + 1),
          isPunct c = true ∨ isWhitespace c = true := by
        intro c hc
        apply hall
        rw [show p + wsLen inp p + 1 = p + (wsLen inp p + 1) by omega, drop_add_eq] at hc
        exact List.mem_of_mem_drop hc
      obtain ⟨toks, l2, hr, ht⟩ := ih (p + wsLen inp p + 1) (ln + wsNewlines inp p) hlen hall2
      rw [← hk, hcons, punctuationKinds_cons _ _ hnw, List.length_cons]
      refine ⟨{ Typ := punctKind (inp.getD (p + wsLen inp p) NUL),
                Literal := String.mk [inp.getD (p + wsLen inp p) NUL],
                Line := ln + wsNewlines inp p,
                Start := p + wsLen inp p,
                End := p + wsLen inp p + 1 } :: toks, l2, ?_, ?_⟩
      · rw [run, hN]
        simp only [hr]
        rfl
      · simp only [List.map_cons, ht]
        rfl
    · have hle : inp.length ≤ p + wsLen inp p := Nat.le_of_not_lt hlt
      rw [← hk, List.drop_eq_nil_of_le hle]
      exact ⟨_, _, run_one_EOF inp p ln hle, rfl⟩

theorem punctuationKinds_no_EOF (cs : List Char) : TokenType.EOF ∉ punctuationKinds cs := by
  intro h
  obtain ⟨c, _, hc⟩ := List.mem_map.1 h
  exact punctKind_ne_EOF c hc

/-- C2: for every input made only of the punctuation runes `{ } [ ] : ,` and
whitespace (space, tab, carriage return, newline), the kinds of the tokens
that repeated `NextToken` calls on `New(input)` return before the first EOF
are exactly the input with its whitespace removed, each rune mapped to its
kind, and the token after them is EOF. -/
theorem C2_punctuation_stream (cs : List Char)
    (h : ∀ c ∈ cs, isPunct c = true ∨ isWhitespace c = true) :
    ∃ toks l, run ((punctuationKinds cs).length + 1) (New (String.mk cs)) = some (toks, l) ∧
      toks.map Token.Typ = punctuationKinds cs ++ [TokenType.EOF] ∧
      TokenType.EOF ∉ punctuationKinds cs := by
  obtain ⟨toks, l, h1, h2⟩ := punct_run cs cs.length 0 0 (by simp) (by simpa using h)
  refine ⟨toks, l, ?_, ?_, punctuationKinds_no_EOF cs⟩
  · rw [New_eq_seat]
    simpa using h1
  · simpa using h2

/-- C2, at the input `[ {\n} ,\t: ]` with blanks, a newline and a tab. -/
theorem C2_punctuation_stream_witness :
    (∀ c ∈ "[ \x7b\n\x7d ,\t: ]".data, isPunct c = true ∨ isWhitespace c = true) ∧
    ∃ toks l, run ((punctuationKinds "[ \x7b\n\x7d ,\t: ]".data).length + 1)
        (New (String.mk "[ \x7b\n\x7d ,\t: ]".data)) = some (toks, l) ∧
      toks.map Token.Typ = punctuationKinds "[ \x7b\n\x7d ,\t: ]".data ++ [TokenType.EOF] ∧
      TokenType.EOF ∉ punctuationKinds "[ \x7b\n\x7d ,\t: ]".data :=
  ⟨by decide, C2_punctuation_stream "[ \x7b\n\x7d ,\t: ]".data (by decide)⟩

/-! ## String tokens -/

theorem getD_eq_iff (inp : List Char) (j : Nat) (c : Char) (hc : c ≠ NUL) :
    inp.getD j NUL = c ↔ inp[j]? = some c := by
  rw [List.getD_eq_getElem?_getD]
  cases h : inp[j]? with
  | none => simp [Ne.symm hc]
  | some x => simp

theorem getD_ne_iff (inp : List Char) (j : Nat) (c : Char) (hc : c ≠ NUL) :
    inp.getD j NUL ≠ c ↔ inp[j]? ≠ some c :=
  not_congr (getD_eq_iff inp j c hc)

theorem getD_ne_NUL (inp : List Char) (h : NoNUL inp) (j : Nat) (hj : j < inp.length) :
    inp.getD j NUL ≠ NUL := by
  rw [getD_of_lt inp j hj]
  exact h _ (List.get_mem inp j hj)

theorem stopAt_iff_StringEnd (inp : List Char) (h : NoNUL inp) (j : Nat) (hj : j ≤ inp.length) :
    stopAt inp j ↔ StringEnd inp j := by
  unfold stopAt StringEnd
  rw [getD_eq_iff inp j '"' (by decide), getD_ne_iff inp (j - 1) '\\' (by decide)]
  constructor
  · rintro (h1 | h1)
    · exact Or.inr h1
    · left
      by_contra hne
      exact getD_ne_NUL inp h j (by omega) h1
  · rintro (h1 | h1)
    · right
      rw [h1]
      exact getD_of_le inp _ (Nat.le_refl _)
    · exact Or.inl h1

theorem string_post (l l1 : Lexer) (hwf : l.WF) (hn : NoNUL l.Input)
    (hs : skipWhitespace l = some l1) (hc : l1.char = '"') : StringPost l l1 := by
  have h1 := skip_of_WF l l1 hwf hs
  generalize l.position + wsLen l.Input l.position = p1 at h1
  generalize l.line + wsNewlines l.Input l.position = ln1 at h1
  subst h1
  have hc2 : l.Input.getD p1 NUL = '"' := hc
  have hlt : p1 < l.Input.length := lt_of_getD_ne l.Input p1 (by rw [hc2]; decide)
  obtain ⟨q, hq1, hq2, hq3, hq4⟩ := exists_stop l.Input p1 hlt
  have hN := NextToken_string l _ _ _ hs hc (readString_seat l.Input p1 ln1 q hq1 hq3 hq4 hq2)
  rw [readChar_seat] at hN
  refine ⟨q, _, _, hN, hq1, (stopAt_iff_StringEnd _ hn q hq2).1 hq3, ?_,
    rfl, rfl, rfl, rfl, rfl, rfl⟩
  intro j hj1 hj2 hj3
  exact hq4 j hj1 hj2 ((stopAt_iff_StringEnd _ hn j (by omega)).2 hj3)

/-- C5: for every NUL-free input and every well-formed lexer state whose
whitespace skip ends on a quote at index `p`, `NextToken` returns a String
token whose literal is exactly the raw slice `Input[p+1 .. q)`, where `q` is
the least index above `p` with `q = len(Input)` or `Input[q]` a quote not
preceded by a backslash; nothing in the literal is unescaped, and the cursor
is left just past `q`. -/
theorem C5_string_literal_raw (l l1 : Lexer) (hwf : l.WF) (hn : NoNUL l.Input)
    (hs : skipWhitespace l = some l1) (hc : l1.char = '"') : StringPost l l1 :=
  string_post l l1 hwf hn hs hc

/-- C5, at the input `"a\"b",` whose string holds an escaped quote, and at
`"\\"x"`, where the quote after the two backslashes does not end the string. -/
theorem C5_string_literal_raw_witness :
    (New "\"a\\\"b\",").WF ∧ NoNUL (New "\"a\\\"b\",").Input ∧
    skipWhitespace (New "\"a\\\"b\",") = some (New "\"a\\\"b\",") ∧
    (New "\"a\\\"b\",").char = '"' ∧
    StringPost (New "\"a\\\"b\",") (New "\"a\\\"b\",") ∧
    kindsAndLiterals (run 3 (New "\"a\\\"b\",")) =
      some [(TokenType.String, "a\\\"b"), (TokenType.Comma, ","), (TokenType.EOF, "")] ∧
    kindsAndLiterals (run 2 (New "\"\\\\\"x\"")) =
      some [(TokenType.String, "\\\\\"x"), (TokenType.EOF, "")] :=
  ⟨by decide, by decide, by decide, by decide,
   C5_string_literal_raw (New "\"a\\\"b\",") (New "\"a\\\"b\",")
     (by decide) (by decide) (by decide) (by decide),
   by decide, by decide⟩

theorem ws_zero (inp : List Char) (p : Nat) (h : isWhitespace (inp.getD p NUL) = false) :
    wsLen inp p = 0 ∧ wsNewlines inp p = 0 := by
  unfold wsLen wsNewlines
  rw [takeWhile_drop_neg isWhitespace inp p h]
  exact ⟨rfl, rfl⟩

theorem skipWhitespace_seat_id (inp : List Char) (p ln : Nat)
    (h : isWhitespace (inp.getD p NUL) = false) :
    skipWhitespace (seat inp p ln) = some (seat inp p ln) := by
  have h1 := skipWhitespace_seat inp p ln
  rw [(ws_zero inp p h).1, (ws_zero inp p h).2] at h1
  exact h1

theorem unterminated_run (s : List Char) (h1 : '"' ∉ s) (h2 : NUL ∉ s) :
    run 2 (seat ('"' :: s) 0 0) =
      some ([{ Typ := TokenType.String, Literal := String.mk s, Line := 0,
               Start := s.length + 1, End := s.length + 2 },
             { Typ := TokenType.EOF, Literal := "", Line := 0, Start := 0, End := 0 }],
            seat ('"' :: s) (s.length + 3) 0) := by
  have hstop : stopAt ('"' :: s) (s.length + 1) :=
    Or.inr (getD_of_le _ _ (by simp))
  have hmin : ∀ j, 0 < j → j < s.length + 1 → ¬ stopAt ('"' :: s) j := by
    intro j hj1 hj2 hst
    obtain ⟨k, rfl⟩ : ∃ k, j = k + 1 := ⟨j - 1, by omega⟩
    have hk : k < s.length := by omega
    have hg : ('"' :: s).getD (k + 1) NUL = s.get ⟨k, hk⟩ := by
      rw [getD_of_lt _ _ (by simpa using hk)]
      rfl
    have hm : s.get ⟨k, hk⟩ ∈ s := List.get_mem s k hk
    rcases hst with ⟨h, _⟩ | h
    · rw [hg] at h
      exact h1 (h ▸ hm)
    · rw [hg] at h
      exact h2 (h ▸ hm)
  have hr := readString_seat ('"' :: s) 0 0 (s.length + 1) (Nat.succ_pos _) hstop hmin
    (by simp)
  have hlit : (('"' :: s).drop (0 + 1)).take (s.length + 1 - (0 + 1)) = s := by
    simp
  rw [hlit] at hr
  have hN := NextToken_string _ _ _ _
    (skipWhitespace_seat_id ('"' :: s) 0 0 (show isWhitespace '"' = false by decide)) rfl hr
  rw [readChar_seat] at hN
  have hle : ('"' :: s).length ≤ s.length + 1 + 1 := by simp
  have hE := NextToken_EOF _ _
    (skipWhitespace_seat_id ('"' :: s) (s.length + 1 + 1) 0
      (by rw [getD_of_le _ _ hle]; decide))
    (getD_of_le _ _ hle)
  rw [readChar_seat] at hE
  simp only [run, hN, hE]
  rfl

/-- C6: for every rune sequence `s` with neither a quote nor NUL, lexing the
unterminated input made of a quote followed by `s` terminates: the first
`NextToken` call returns a String token whose literal is exactly `s`, and the
second call returns EOF. -/
theorem C6_unterminated_string (s : List Char) (h1 : '"' ∉ s) (h2 : NUL ∉ s) :
    kindsAndLiterals (run 2 (New (String.mk ('"' :: s)))) =
      some [(TokenType.String, String.mk s), (TokenType.EOF, "")] := by
  rw [New_eq_seat]
  change kindsAndLiterals (run 2 (seat ('"' :: s) 0 0)) = _
  rw [unterminated_run s h1 h2]
  rfl

/-- C6, at the input `"abc`: STRING `abc`, then EOF. -/
theorem C6_unterminated_string_witness :
    '"' ∉ "abc".data ∧ NUL ∉ "abc".data ∧
    kindsAndLiterals (run 2 (New (String.mk ('"' :: "abc".data)))) =
      some [(TokenType.String, String.mk "abc".data), (TokenType.EOF, "")] ∧
    String.mk ('"' :: "abc".data) = "\"abc" ∧ String.mk "abc".data = "abc" :=
  ⟨by decide, by decide, C6_unterminated_string "abc".data (by decide) (by decide),
   by decide, by decide⟩

/-! ## End of input and the line counter -/

theorem NextToken_past_end (inp : List Char) (p ln : Nat) (h : inp.length ≤ p) :
    NextToken (seat inp p ln) =
      some ({ Typ := TokenType.EOF, Literal := "", Line := ln, Start := 0, End := 0 },
            seat inp (p + 1) ln) := by
  have hc : inp.getD p NUL = NUL := getD_of_le inp p h
  have hN := NextToken_EOF _ _
    (skipWhitespace_seat_id inp p ln (by rw [hc]; exact isWhitespace_NUL)) hc
  rw [readChar_seat] at hN
  exact hN

theorem EOF_forever (inp : List Char) (ln : Nat) :
    ∀ (k p : Nat), inp.length ≤ p →
      ∃ toks p', run k (seat inp p ln) = some (toks, seat inp p' ln) ∧ toks.length = k ∧
        ∀ t ∈ toks, t = { Typ := TokenType.EOF, Literal := "", Line := ln, Start := 0, End := 0 } := by
  intro k
  induction k with
  | zero =>
    intro p _
    exact ⟨[], p, rfl, rfl, fun t ht => absurd ht (List.not_mem_nil t)⟩
  | succ k ih =>
    intro p hp
    obtain ⟨toks, p', hr, hl, hall⟩ := ih (p + 1) (Nat.le_succ_of_le hp)
    refine ⟨{ Typ := TokenType.EOF, Literal := "", Line := ln, Start := 0, End := 0 } :: toks,
      p', ?_, by rw [List.length_cons, hl], ?_⟩
    · rw [run, NextToken_past_end inp p ln hp]
      simp only [hr]
    · intro t ht
      rcases List.mem_cons.1 ht with h | h
      · exact h
      · exact hall t h

theorem EOF_position (inp : List Char) (hn : NoNUL inp) (p ln : Nat) (t : Token) (l : Lexer)
    (hN : NextToken (seat inp p ln) = some (t, l)) (hE : t.Typ = TokenType.EOF) :
    ∃ p' ln', l = seat inp p' ln' ∧ inp.length ≤ p' := by
  obtain ⟨t0, p', h1, _, h3, h4⟩ := NextToken_step inp p ln
  rw [hN] at h1
  have ht : t = t0 := congrArg Prod.fst (Option.some.inj h1)
  have hl : l = seat inp p' (ln + wsNewlines inp p) := congrArg Prod.snd (Option.some.inj h1)
  refine ⟨p', _, hl, ?_⟩
  by_contra hlt
  exact getD_ne_NUL inp hn (p + wsLen inp p) (by omega) (h4 (ht ▸ hE))

/-- Any number of calls from a well-formed state returns that many tokens and
ends in a well-formed state on the same input; the token lines never fall
below the starting line, never exceed the final line, and never decrease. -/
theorem run_lines (inp : List Char) :
    ∀ (n p ln : Nat), ∃ toks p' ln', run n (seat inp p ln) = some (toks, seat inp p' ln') ∧
      toks.length = n ∧ ln ≤ ln' ∧ (∀ t ∈ toks, ln ≤ t.Line ∧ t.Line ≤ ln') ∧
      (toks.map Token.Line).Pairwise (fun a b => a ≤ b) := by
  intro n
  induction n with
  | zero =>
    intro p ln
    exact ⟨[], p, ln, rfl, rfl, Nat.le_refl _, fun t ht => absurd ht (List.not_mem_nil t),
      List.Pairwise.nil⟩
  | succ n ih =>
    intro p ln
    obtain ⟨t, p1, hN, hL, _, _⟩ := NextToken_step inp p ln
    obtain ⟨toks, p', ln', hr, hlen, hle, hall, hsorted⟩ := ih p1 (ln + wsNewlines inp p)
    refine ⟨t :: toks, p', ln', ?_, by rw [List.length_cons, hlen], by omega, ?_, ?_⟩
    · rw [run, hN]
      simp only [hr]
    · intro t' ht'
      rcases List.mem_cons.1 ht' with h | h
      · subst h
        omega
      · have := hall t' h
        omega
    · rw [List.map_cons, List.pairwise_cons]
      refine ⟨?_, hsorted⟩
      intro b hb
      obtain ⟨t', ht', rfl⟩ := List.mem_map.1 hb
      have := hall t' ht'
      omega

/-- C7, as stated, fails: on the input made of a NUL rune followed by `{`, the
first `NextToken` call returns EOF and the second returns a LeftBrace. -/
theorem C7_counterexample_EOF_then_token :
    kindsAndLiterals (run 2 (New "\x00\x7b")) =
      some [(TokenType.EOF, ""), (TokenType.LeftBrace, "\x7b")] ∧
    ∃ t1 l1 t2 l2, NextToken (New "\x00\x7b") = some (t1, l1) ∧ t1.Typ = TokenType.EOF ∧
      NextToken l1 = some (t2, l2) ∧ t2.Typ ≠ TokenType.EOF := by
  refine ⟨by decide, ?_⟩
  refine ⟨{ Typ := TokenType.EOF, Literal := "", Line := 0, Start := 0, End := 0 },
    seat "\x00\x7b".data 1 0,
    { Typ := TokenType.LeftBrace, Literal := "\x7b", Line := 0, Start := 1, End := 2 },
    seat "\x00\x7b".data 2 0, by decide, by decide, by decide, by decide⟩

/-- C7 (amended): for every input without a NUL rune, once a `NextToken` call
on the lexer made by `New(input)` has returned an EOF token, every later call
on that lexer returns an EOF token with empty literal, however many calls
follow. -/
theorem C7_EOF_is_final (input : String) (hn : NoNUL input.data) (m : Nat)
    (toks : List Token) (l : Lexer) (t : Token) (l' : Lexer)
    (hrun : run m (New input) = some (toks, l))
    (hnext : NextToken l = some (t, l')) (hE : t.Typ = TokenType.EOF) (k : Nat) :
    ∃ later l'', run k l' = some (later, l'') ∧ later.length = k ∧
      ∀ t' ∈ later, t'.Typ = TokenType.EOF ∧ t'.Literal = "" := by
  obtain ⟨toks0, p, ln, h0, _⟩ := run_lines input.data m 0 0
  rw [← New_eq_seat, hrun] at h0
  have hl : l = seat input.data p ln := congrArg Prod.snd (Option.some.inj h0)
  subst hl
  obtain ⟨p', ln', hl', hp'⟩ := EOF_position input.data hn p ln t l' hnext hE
  subst hl'
  obtain ⟨later, p'', hr, hlen, hall⟩ := EOF_forever input.data ln' k p' hp'
  refine ⟨later, _, hr, hlen, ?_⟩
  intro t' ht'
  rw [hall t' ht']
  exact ⟨rfl, rfl⟩

/-- C7 (amended), at the input `[ ]`: the third call returns EOF, and so do
the five calls after it. -/
theorem C7_EOF_is_final_witness :
    NoNUL "[ ]".data ∧
    run 2 (New "[ ]") =
      some ([{ Typ := TokenType.LeftBracket, Literal := "[", Line := 0, Start := 0, End := 1 },
             { Typ := TokenType.RightBracket, Literal := "]", Line := 0, Start := 2, End := 3 }],
            seat "[ ]".data 3 0) ∧
    NextToken (seat "[ ]".data 3 0) =
      some ({ Typ := TokenType.EOF, Literal := "", Line := 0, Start := 0, End := 0 },
            seat "[ ]".data 4 0) ∧
    ∃ later l'', run 5 (seat "[ ]".data 4 0) = some (later, l'') ∧ later.length = 5 ∧
      ∀ t' ∈ later, t'.Typ = TokenType.EOF ∧ t'.Literal = "" := by
  have h0 : NoNUL "[ ]".data := by decide
  have h1 : run 2 (New "[ ]") =
      some ([{ Typ := TokenType.LeftBracket, Literal := "[", Line := 0, Start := 0, End := 1 },
             { Typ := TokenType.RightBracket, Literal := "]", Line := 0, Start := 2, End := 3 }],
            seat "[ ]".data 3 0) := by decide
  have h2 : NextToken (seat "[ ]".data 3 0) =
      some ({ Typ := TokenType.EOF, Literal := "", Line := 0, Start := 0, End := 0 },
            seat "[ ]".data 4 0) := by decide
  exact ⟨h0, h1, h2, C7_EOF_is_final "[ ]" h0 2 _ _ _ _ h1 h2 rfl 5⟩

/-- C8 fails on the code: for the input `"a"` the opening quote is at index 0,
yet the String token has `Start = 2` (the closing quote, where the scan
stopped) and `End = 3`; `End = Start + 1` does hold. -/
theorem C8_string_span_sits_on_closing_quote :
    (New "\"a\"").Input.getD 0 NUL = '"' ∧
    (New "\"a\"").Input.getD 2 NUL = '"' ∧
    (NextToken (New "\"a\"")).map Prod.fst =
      some { Typ := TokenType.String, Literal := "a", Line := 0, Start := 2, End := 3 } := by
  decide

/-- C9 fails on the code: in the input `"⏎"{` (a string holding a raw newline,
then a brace) the brace begins at index 3, after one newline, yet its token
has `Line = 0`: newlines consumed by `readString` are never counted. -/
theorem C9_line_ignores_newline_inside_string :
    ((New "\"\n\"\x7b").Input.take 3).count '\n' = 1 ∧
    (run 2 (New "\"\n\"\x7b")).map Prod.fst =
      some [{ Typ := TokenType.String, Literal := "\n", Line := 0, Start := 2, End := 3 },
            { Typ := TokenType.LeftBrace, Literal := "\x7b", Line := 0, Start := 3, End := 4 }] := by
  decide

/-- C10: for every input and every number of successive `NextToken` calls on
the lexer made by `New(input)`, all calls return, and the `Line` fields of the
returned tokens form a non-decreasing sequence, bounded by the line counter
the lexer ends with. -/
theorem C10_line_non_decreasing (input : String) (n : Nat) :
    ∃ toks l, run n (New input) = some (toks, l) ∧ toks.length = n ∧
      (toks.map Token.Line).Pairwise (fun a b => a ≤ b) ∧
      ∀ t ∈ toks, t.Line ≤ l.line := by
  obtain ⟨toks, p', ln', hr, hlen, _, hall, hsorted⟩ := run_lines input.data n 0 0
  rw [← New_eq_seat] at hr
  exact ⟨toks, _, hr, hlen, hsorted, fun t ht => (hall t ht).2⟩

/-! ## Catch-all, punctuation, keyword lookup, cursor invariant, whitespace -/

theorem catch_all_post (l l1 : Lexer) (hwf : l.WF) (hs : skipWhitespace l = some l1)
    (h1 : isPunct l1.char = false) (h2 : l1.char ≠ '"') (h3 : l1.char ≠ NUL)
    (h4 : isLetter l1.char = false) (h5 : isNumber l1.char = false) : CatchAllPost l l1 := by
  have e := skip_of_WF l l1 hwf hs
  generalize l.position + wsLen l.Input l.position = p1 at e
  generalize l.line + wsNewlines l.Input l.position = ln1 at e
  subst e
  have hN := NextToken_other l _ hs h1 h2 h3 h4 h5
  rw [readChar_seat] at hN
  exact ⟨_, _, hN, rfl, rfl, rfl, rfl, rfl, rfl, rfl, rfl, rfl, rfl⟩

/-- C11: in every well-formed lexer state whose whitespace skip ends on a
rune `c` that is none of `{ } [ ] : ,`, a quote, NUL, a lowercase ASCII
letter, an ASCII digit, `.` or `-`, `NextToken` returns an Illegal token with
literal `c`, the current line, `Start = 1` and `End = 2` whatever the
position, and moves the cursor on by exactly one rune; the input `XYZ` gives
Illegal `X`, Illegal `Y`, Illegal `Z`, then EOF. -/
theorem C11_catch_all_illegal :
    (∀ l l1 : Lexer, l.WF → skipWhitespace l = some l1 →
      isPunct l1.char = false → l1.char ≠ '"' → l1.char ≠ NUL →
      isLetter l1.char = false → isNumber l1.char = false → CatchAllPost l l1) ∧
    (run 4 (New "XYZ")).map Prod.fst =
      some [{ Typ := TokenType.Illegal, Literal := "X", Line := 0, Start := 1, End := 2 },
            { Typ := TokenType.Illegal, Literal := "Y", Line := 0, Start := 1, End := 2 },
            { Typ := TokenType.Illegal, Literal := "Z", Line := 0, Start := 1, End := 2 },
            { Typ := TokenType.EOF, Literal := "", Line := 0, Start := 0, End := 0 }] :=
  ⟨catch_all_post, by decide⟩

/-- C11, at the input `\n  #x`: the rune `#` at index 3 on line 1 gives the
Illegal token with span `(1, 2)`, and the cursor moves from 3 to 4. -/
theorem C11_catch_all_illegal_witness :
    (New "\n  #x").WF ∧
    skipWhitespace (New "\n  #x") = some (seat "\n  #x".data 3 1) ∧
    isPunct (seat "\n  #x".data 3 1).char = false ∧
    (seat "\n  #x".data 3 1).char ≠ '"' ∧
    (seat "\n  #x".data 3 1).char ≠ NUL ∧
    isLetter (seat "\n  #x".data 3 1).char = false ∧
    isNumber (seat "\n  #x".data 3 1).char = false ∧
    CatchAllPost (New "\n  #x") (seat "\n  #x".data 3 1) ∧
    NextToken (New "\n  #x") =
      some ({ Typ := TokenType.Illegal, Literal := "#", Line := 1, Start := 1, End := 2 },
            seat "\n  #x".data 4 1) :=
  ⟨by decide, by decide, by decide, by decide, by decide, by decide, by decide,
   C11_catch_all_illegal.1 (New "\n  #x") (seat "\n  #x".data 3 1)
     (by decide) (by decide) (by decide) (by decide) (by decide) (by decide) (by decide),
   by decide⟩

theorem punct_post (l l1 : Lexer) (hwf : l.WF) (hs : skipWhitespace l = some l1)
    (hc : isPunct l1.char = true) : PunctPost l l1 := by
  have e := skip_of_WF l l1 hwf hs
  generalize l.position + wsLen l.Input l.position = p1 at e
  generalize l.line + wsNewlines l.Input l.position = ln1 at e
  subst e
  have hc2 : isPunct (l.Input.getD p1 NUL) = true := hc
  have hlt : p1 < l.Input.length :=
    lt_of_getD_ne l.Input p1 (by intro h; rw [h] at hc2; revert hc2; decide)
  have hN := NextToken_punct l _ hs hc
  rw [readChar_seat] at hN
  refine ⟨_, _, hN, rfl, rfl, rfl, rfl, rfl, ?_, rfl, rfl, rfl, rfl, rfl⟩
  change slice l.Input p1 (p1 + 1) = some [l.Input.getD p1 NUL]
  unfold slice
  rw [if_pos ⟨Nat.le_succ _, hlt⟩, drop_eq_getD_cons l.Input p1 hlt, Nat.add_sub_cancel_left]
  rfl

/-- C15: in every well-formed lexer state whose whitespace skip ends at index
`p` on one of `{ } [ ] : ,`, `NextToken` returns a token of the matching kind
whose literal is that one rune, on the current line, with `Start = p` and
`End = p + 1` (so `Input[Start..End)` is the literal), and moves the cursor
on by exactly one rune to `p + 1`. -/
theorem C15_punctuation_token (l l1 : Lexer) (hwf : l.WF)
    (hs : skipWhitespace l = some l1) (hc : isPunct l1.char = true) : PunctPost l l1 :=
  punct_post l l1 hwf hs hc

/-- C15, at the input ` \n:x`: the colon at index 2 on line 1. -/
theorem C15_punctuation_token_witness :
    (New " \n:x").WF ∧
    skipWhitespace (New " \n:x") = some (seat " \n:x".data 2 1) ∧
    isPunct (seat " \n:x".data 2 1).char = true ∧
    PunctPost (New " \n:x") (seat " \n:x".data 2 1) ∧
    NextToken (New " \n:x") =
      some ({ Typ := TokenType.Colon, Literal := ":", Line := 1, Start := 2, End := 3 },
            seat " \n:x".data 3 1) ∧
    punctKind '\x7b' = TokenType.LeftBrace ∧ punctKind '\x7d' = TokenType.RightBrace ∧
    punctKind '[' = TokenType.LeftBracket ∧ punctKind ']' = TokenType.RightBracket ∧
    punctKind ':' = TokenType.Colon ∧ punctKind ',' = TokenType.Comma :=
  ⟨by decide, by decide, by decide,
   C15_punctuation_token (New " \n:x") (seat " \n:x".data 2 1)
     (by decide) (by decide) (by decide),
   by decide, by decide, by decide, by decide, by decide, by decide, by decide⟩

theorem lookup_miss (s : String) (h1 : s ≠ "true") (h2 : s ≠ "false") (h3 : s ≠ "null") :
    LookupIdentifier s = ("", some ("Expected a valid JSON identifier. Found: " ++ s)) := by
  have b1 : (s == "true") = false := by simpa using h1
  have b2 : (s == "false") = false := by simpa using h2
  have b3 : (s == "null") = false := by simpa using h3
  simp [LookupIdentifier, validJSONIdentifiers, List.lookup, b1, b2, b3]

theorem identifier_error_caught (l l1 : Lexer) (hwf : l.WF) (hs : skipWhitespace l = some l1)
    (hc : isLetter l1.char = true) :
    ∃ t l2, NextToken l = some (t, l2) ∧
      ((LookupIdentifier t.Literal).2.isSome = true → t.Typ = TokenType.Illegal) ∧
      ((LookupIdentifier t.Literal).2 = none → t.Typ = (LookupIdentifier t.Literal).1) := by
  have e := skip_of_WF l l1 hwf hs
  generalize l.position + wsLen l.Input l.position = p1 at e
  generalize l.line + wsNewlines l.Input l.position = ln1 at e
  subst e
  have hc2 : isLetter (l.Input.getD p1 NUL) = true := hc
  have hlt : p1 < l.Input.length :=
    lt_of_getD_ne l.Input p1 (letter_not _ hc2).2.2.2.2.2.2.2
  have hN := NextToken_identifier l _ _ _ hs hc
    (readIdentifier_seat l.Input p1 ln1 (Nat.le_of_lt hlt))
  refine ⟨_, _, hN, ?_, ?_⟩
  · intro h
    exact if_pos h
  · intro h
    have : ¬ (LookupIdentifier (String.mk ((l.Input.drop p1).takeWhile isLetter))).2.isSome
        = true := by
      rw [show (LookupIdentifier (String.mk ((l.Input.drop p1).takeWhile isLetter))).2 = none
        from h]
      decide
    exact if_neg this

/-- C16: `LookupIdentifier` returns `(True, nil)` for `true`, `(False, nil)`
for `false`, `(Null, nil)` for `null`, and for every other string (the empty
string, `True` and `nulls` among them) an error together with the empty Type;
inside `NextToken` the call still returns a token, of kind Illegal when the
lookup gave an error. -/
theorem C16_lookup_identifier :
    LookupIdentifier "true" = (TokenType.True, none) ∧
    LookupIdentifier "false" = (TokenType.False, none) ∧
    LookupIdentifier "null" = (TokenType.Null, none) ∧
    (∀ s : String, s ≠ "true" → s ≠ "false" → s ≠ "null" →
      LookupIdentifier s = ("", some ("Expected a valid JSON identifier. Found: " ++ s))) ∧
    (LookupIdentifier "").1 = "" ∧ (LookupIdentifier "").2.isSome = true ∧
    (LookupIdentifier "True").1 = "" ∧ (LookupIdentifier "True").2.isSome = true ∧
    (LookupIdentifier "nulls").1 = "" ∧ (LookupIdentifier "nulls").2.isSome = true ∧
    (∀ l l1 : Lexer, l.WF → skipWhitespace l = some l1 → isLetter l1.char = true →
      ∃ t l2, NextToken l = some (t, l2) ∧
        ((LookupIdentifier t.Literal).2.isSome = true → t.Typ = TokenType.Illegal) ∧
        ((LookupIdentifier t.Literal).2 = none → t.Typ = (LookupIdentifier t.Literal).1)) :=
  ⟨by decide, by decide, by decide, lookup_miss, by decide, by decide, by decide, by decide,
   by decide, by decide, identifier_error_caught⟩

/-- C16, at the input `nulls`: the lookup fails and the call returns the
Illegal token `nulls`. -/
theorem C16_lookup_identifier_witness :
    (New "nulls").WF ∧ skipWhitespace (New "nulls") = some (New "nulls") ∧
    isLetter (New "nulls").char = true ∧
    (∃ t l2, NextToken (New "nulls") = some (t, l2) ∧
      ((LookupIdentifier t.Literal).2.isSome = true → t.Typ = TokenType.Illegal) ∧
      ((LookupIdentifier t.Literal).2 = none → t.Typ = (LookupIdentifier t.Literal).1)) ∧
    NextToken (New "nulls") =
      some ({ Typ := TokenType.Illegal, Literal := "nulls", Line := 0, Start := 0, End := 5 },
            seat "nulls".data 5 0) :=
  ⟨by decide, by decide, by decide,
   C16_lookup_identifier.2.2.2.2.2.2.2.2.2.2 (New "nulls") (New "nulls")
     (by decide) (by decide) (by decide),
   by decide⟩

/-- C17: right after `New(input)` the lexer has `position = 0`,
`readPosition = 1`, `line = 0` and `char` the first input rune (NUL for empty
input); and after `New` and after any number of `NextToken` calls,
`readPosition = position + 1`, `char = Input[position]` while
`position < len(Input)`, and `char = NUL` once `position >= len(Input)`. -/
theorem C17_cursor_invariant (input : String) :
    ((New input).Input = input.data ∧ (New input).position = 0 ∧
      (New input).readPosition = 1 ∧ (New input).line = 0 ∧
      (New input).char = input.data.headD NUL) ∧
    ∀ n : Nat, ∃ toks l, run n (New input) = some (toks, l) ∧ toks.length = n ∧
      l.Input = input.data ∧ l.readPosition = l.position + 1 ∧
      (∀ h : l.position < l.Input.length, l.char = l.Input.get ⟨l.position, h⟩) ∧
      (l.Input.length ≤ l.position → l.char = NUL) := by
  constructor
  · rw [New_eq_seat]
    refine ⟨rfl, rfl, rfl, rfl, ?_⟩
    cases input.data <;> rfl
  · intro n
    obtain ⟨toks, p', ln', hr, hlen, _, _, _⟩ := run_lines input.data n 0 0
    rw [← New_eq_seat] at hr
    refine ⟨toks, _, hr, hlen, rfl, rfl, ?_, ?_⟩
    · intro h
      exact getD_of_lt input.data p' h
    · intro h
      exact getD_of_le input.data p' h

theorem skip_post (l : Lexer) (hwf : l.WF) : SkipPost l := by
  have h := skipWhitespace_seat l.Input l.position l.line
  rw [← seat_of_WF l hwf] at h
  refine ⟨_, h, rfl, rfl, rfl, rfl, rfl, not_ws_after_skip l.Input l.position, ?_⟩
  intro hk
  have hn : wsNewlines l.Input l.position = 0 := by
    unfold wsNewlines
    unfold wsLen at hk
    rw [List.length_eq_zero.1 hk]
    rfl
  rw [hk, hn]
  exact (seat_of_WF l hwf).symm

/-- C18: from every well-formed lexer state at index `p`, `skipWhitespace`
moves the cursor to `p + k`, with `k` the length of the maximal run at `p` of
spaces, tabs, carriage returns and newlines, raises `line` by exactly the
number of newlines in that run, leaves a current rune that is none of the
four, and changes nothing when `k = 0`. -/
theorem C18_skip_whitespace (l : Lexer) (hwf : l.WF) : SkipPost l :=
  skip_post l hwf

/-- C18, at the input ` \r\n\t\n x`: six whitespace runes, two of them
newlines, so the cursor ends on index 6 with `line = 2`; and from that state
nothing changes. -/
theorem C18_skip_whitespace_witness :
    (New " \r\n\t\n x").WF ∧ SkipPost (New " \r\n\t\n x") ∧
    wsLen (New " \r\n\t\n x").Input 0 = 6 ∧ wsNewlines (New " \r\n\t\n x").Input 0 = 2 ∧
    skipWhitespace (New " \r\n\t\n x") = some (seat " \r\n\t\n x".data 6 2) ∧
    skipWhitespace (seat " \r\n\t\n x".data 6 2) = some (seat " \r\n\t\n x".data 6 2) :=
  ⟨by decide, C18_skip_whitespace (New " \r\n\t\n x") (by decide),
   by decide, by decide, by decide, by decide⟩

/-! ## One call in full: span, end of input, literal -/

theorem take_one_drop (inp : List Char) (p : Nat) (h : p < inp.length) :
    (inp.drop p).take (p + 1 - p) = [inp.getD p NUL] := by
  rw [drop_eq_getD_cons inp p h, Nat.add_sub_cancel_left]
  rfl

theorem take_run_drop (pr : Char → Bool) (inp : List Char) (p : Nat) :
    (inp.drop p).take (p + ((inp.drop p).takeWhile pr).length - p)
      = (inp.drop p).takeWhile pr := by
  rw [Nat.add_sub_cancel_left, take_length_takeWhile]

/-- One call from a well-formed state, in full: besides `NextToken_step`, the
span is ordered, the NUL sentinel gives exactly the EOF token and one step of
the cursor, any other rune gives a non-EOF token, and outside the string
branch the literal is the input consumed. -/
theorem NextToken_step_full (inp : List Char) (p ln : Nat) :
    ∃ t p', NextToken (seat inp p ln) = some (t, seat inp p' (ln + wsNewlines inp p)) ∧
      t.Line = ln + wsNewlines inp p ∧ p + wsLen inp p < p' ∧ t.Start ≤ t.End ∧
      (inp.getD (p + wsLen inp p) NUL = NUL →
        t = { Typ := TokenType.EOF, Literal := "", Line := ln + wsNewlines inp p,
              Start := 0, End := 0 } ∧ p' = p + wsLen inp p + 1) ∧
      (inp.getD (p + wsLen inp p) NUL ≠ NUL →
        t.Typ ≠ TokenType.EOF ∧ p + wsLen inp p < inp.length) ∧
      (inp.getD (p + wsLen inp p) NUL ≠ NUL → inp.getD (p + wsLen inp p) NUL ≠ '"' →
        t.Literal = String.mk ((inp.drop (p + wsLen inp p)).take (p' - (p + wsLen inp p))) ∧
        p' ≤ inp.length) := by
  have hs := skipWhitespace_seat inp p ln
  generalize p + wsLen inp p = p1 at hs
  generalize ln + wsNewlines inp p = ln1 at hs
  by_cases c3 : inp.getD p1 NUL = NUL
  · refine ⟨{ Typ := TokenType.EOF, Literal := "", Line := ln1, Start := 0, End := 0 },
      p1 + 1, ?_, rfl, Nat.lt_succ_self _, Nat.le_refl _, fun _ => ⟨rfl, rfl⟩,
      fun h => absurd c3 h, fun h => absurd c3 h⟩
    rw [NextToken_EOF _ _ hs c3, readChar_seat]
    rfl
  have hlt : p1 < inp.length := lt_of_getD_ne inp p1 c3
  by_cases c1 : isPunct (inp.getD p1 NUL) = true
  · refine ⟨{ Typ := punctKind (inp.getD p1 NUL), Literal := String.mk [inp.getD p1 NUL],
              Line := ln1, Start := p1, End := p1 + 1 }, p1 + 1, ?_, rfl, Nat.lt_succ_self _,
      Nat.le_succ _, fun h => absurd h c3, fun _ => ⟨punctKind_ne_EOF _, hlt⟩,
      fun _ _ => ⟨?_, hlt⟩⟩
    · rw [NextToken_punct _ _ hs c1, readChar_seat]
      rfl
    · rw [take_one_drop inp p1 hlt]
  by_cases c2 : inp.getD p1 NUL = '"'
  · obtain ⟨q, hq1, hq2, hq3, hq4⟩ := exists_stop inp p1 hlt
    refine ⟨{ Typ := TokenType.String,
              Literal := String.mk ((inp.drop (p1 + 1)).take (q - (p1 + 1))),
              Line := ln1, Start := q, End := q + 1 }, q + 1, ?_, rfl, by omega,
      Nat.le_succ _, fun h => absurd h c3, fun _ => ⟨?_, hlt⟩, fun _ h => absurd c2 h⟩
    · rw [NextToken_string _ _ _ _ hs c2 (readString_seat inp p1 ln1 q hq1 hq3 hq4 hq2),
        readChar_seat]
      rfl
    · intro h
      exact absurd (show TokenType.String = TokenType.EOF from h) (by decide)
  by_cases c4 : isLetter (inp.getD p1 NUL) = true
  · have hle := takeWhile_drop_length_le isLetter inp p1
    refine ⟨{ Typ := if (LookupIdentifier (String.mk ((inp.drop p1).takeWhile isLetter))).2.isSome
                     then TokenType.Illegal
                     else (LookupIdentifier (String.mk ((inp.drop p1).takeWhile isLetter))).1,
              Literal := String.mk ((inp.drop p1).takeWhile isLetter),
              Line := ln1, Start := p1,
              End := p1 + ((inp.drop p1).takeWhile isLetter).length },
      p1 + ((inp.drop p1).takeWhile isLetter).length, ?_, rfl, ?_, Nat.le_add_right _ _,
      fun h => absurd h c3, fun _ => ⟨lookup_kind_ne_EOF _, hlt⟩, fun _ _ => ⟨?_, by omega⟩⟩
    · rw [NextToken_identifier _ _ _ _ hs c4 (readIdentifier_seat inp p1 ln1 (Nat.le_of_lt hlt))]
      rfl
    · have := run_length_pos isLetter isLetter_NUL inp p1 c4
      omega
    · rw [take_run_drop isLetter inp p1]
  by_cases c5 : isNumber (inp.getD p1 NUL) = true
  · have hle := takeWhile_drop_length_le isNumber inp p1
    refine ⟨{ Typ := TokenType.Number,
              Literal := String.mk ((inp.drop p1).takeWhile isNumber),
              Line := ln1, Start := p1,
              End := p1 + ((inp.drop p1).takeWhile isNumber).length },
      p1 + ((inp.drop p1).takeWhile isNumber).length, ?_, rfl, ?_, Nat.le_add_right _ _,
      fun h => absurd h c3, fun _ => ⟨?_, hlt⟩, fun _ _ => ⟨?_, by omega⟩⟩
    · rw [NextToken_number _ _ _ _ hs c5 (readNumber_seat inp p1 ln1 (Nat.le_of_lt hlt))]
      rfl
    · have := run_length_pos isNumber isNumber_NUL inp p1 c5
      omega
    · intro h
      exact absurd (show TokenType.Number = TokenType.EOF from h) (by decide)
    · rw [take_run_drop isNumber inp p1]
  · refine ⟨{ Typ := TokenType.Illegal, Literal := String.mk [inp.getD p1 NUL],
              Line := ln1, Start := 1, End := 2 }, p1 + 1, ?_, rfl, Nat.lt_succ_self _,
      Nat.le_succ 1, fun h => absurd h c3, fun _ => ⟨?_, hlt⟩, fun _ _ => ⟨?_, hlt⟩⟩
    · rw [NextToken_other _ _ hs (Bool.eq_false_iff.2 c1) c2 c3 (Bool.eq_false_iff.2 c4)
        (Bool.eq_false_iff.2 c5), readChar_seat]
      rfl
    · intro h
      exact absurd (show TokenType.Illegal = TokenType.EOF from h) (by decide)
    · rw [take_one_drop inp p1 hlt]

/-- Every token of a run from a well-formed state has `Start ≤ End`. -/
theorem run_spans (inp : List Char) :
    ∀ (n p ln : Nat), ∃ toks p' ln', run n (seat inp p ln) = some (toks, seat inp p' ln') ∧
      ∀ t ∈ toks, t.Start ≤ t.End := by
  intro n
  induction n with
  | zero =>
    intro p ln
    exact ⟨[], p, ln, rfl, fun t ht => absurd ht (List.not_mem_nil t)⟩
  | succ n ih =>
    intro p ln
    obtain ⟨t, p1, hN, _, _, hse, _⟩ := NextToken_step_full inp p ln
    obtain ⟨toks, p', ln', hr, hall⟩ := ih p1 (ln + wsNewlines inp p)
    refine ⟨t :: toks, p', ln', ?_, ?_⟩
    · rw [run, hN]
      simp only [hr]
    · intro t' ht'
      rcases List.mem_cons.1 ht' with h | h
      · rw [h]; exact hse
      · exact hall t' h

/-! ## The first EOF of a run -/

theorem lossless_head (inp : List Char) (p : Nat) (hp : p < inp.length)
    (hall : ∀ c ∈ inp.drop p, isWhitespace c = false ∧ c ≠ '"' ∧ c ≠ NUL) :
    wsLen inp p = 0 ∧ inp.getD p NUL ≠ '"' ∧ inp.getD p NUL ≠ NUL := by
  have hm : inp.getD p NUL ∈ inp.drop p := by
    rw [drop_eq_getD_cons inp p hp]
    exact List.mem_cons_self _ _
  obtain ⟨h1, h2, h3⟩ := hall _ hm
  exact ⟨(ws_zero inp p h1).1, h2, h3⟩

/-- From a well-formed state at index `p`, some call among the first
`len - p + 1` returns EOF; the tokens before it are not EOF, and when the rest
of the input holds no whitespace, quote or NUL, their literals concatenate to
exactly that rest. -/
theorem first_EOF (inp : List Char) :
    ∀ (d p ln : Nat), inp.length - p ≤ d →
      ∃ pre e p' ln', run (pre.length + 1) (seat inp p ln) = some (pre ++ [e], seat inp p' ln') ∧
        pre.length ≤ inp.length - p ∧ (∀ t ∈ pre, t.Typ ≠ TokenType.EOF) ∧
        e.Typ = TokenType.EOF ∧
        ((∀ c ∈ inp.drop p, isWhitespace c = false ∧ c ≠ '"' ∧ c ≠ NUL) →
          literals pre = inp.drop p) := by
  intro d
  induction d with
  | zero =>
    intro p ln hd
    have hle : inp.length ≤ p := by omega
    refine ⟨[], { Typ := TokenType.EOF, Literal := "", Line := ln, Start := 0, End := 0 },
      p + 1, ln, ?_, Nat.zero_le _, fun t ht => absurd ht (List.not_mem_nil t),
      rfl, fun _ => ?_⟩
    · rw [run, NextToken_past_end inp p ln hle]
      rfl
    · rw [List.drop_eq_nil_of_le hle]
      rfl
  | succ d ih =>
    intro p ln hd
    obtain ⟨t, p', hN, _, hlt, _, h5, h6, h7⟩ := NextToken_step_full inp p ln
    by_cases c : inp.getD (p + wsLen inp p) NUL = NUL
    · obtain ⟨ht, _⟩ := h5 c
      refine ⟨[], t, p', ln + wsNewlines inp p, ?_, Nat.zero_le _,
        fun t ht => absurd ht (List.not_mem_nil t),
        by rw [ht], fun hall => ?_⟩
      · rw [run, hN]
        rfl
      · by_cases hp : p < inp.length
        · obtain ⟨hw, _, hn⟩ := lossless_head inp p hp hall
          rw [hw, Nat.add_zero] at c
          exact absurd c hn
        · rw [List.drop_eq_nil_of_le (Nat.le_of_not_lt hp)]
          rfl
    · obtain ⟨hne, hlen⟩ := h6 c
      obtain ⟨pre, e, p'', ln'', hr, hpl, hpre, he, hlit⟩ :=
        ih p' (ln + wsNewlines inp p) (by omega)
      refine ⟨t :: pre, e, p'', ln'', ?_, ?_, ?_, he, fun hall => ?_⟩
      · rw [List.length_cons, run, hN]
        simp only [hr]
        rfl
      · rw [List.length_cons]
        omega
      · intro t' ht'
        rcases List.mem_cons.1 ht' with h | h
        · rw [h]; exact hne
        · exact hpre t' h
      · have hp : p < inp.length := by omega
        obtain ⟨hw, hq, _⟩ := lossless_head inp p hp hall
        rw [hw, Nat.add_zero] at c h7 hlt
        obtain ⟨hL, hp'⟩ := h7 c hq
        have hdrop : inp.drop p' = (inp.drop p).drop (p' - p) := by
          rw [← drop_add_eq]
          congr 1
          omega
        have hall' : ∀ c ∈ inp.drop p', isWhitespace c = false ∧ c ≠ '"' ∧ c ≠ NUL := by
          intro c hc
          rw [hdrop] at hc
          exact hall c (List.mem_of_mem_drop hc)
        change t.Literal.data ++ literals pre = inp.drop p
        rw [hlit hall', hL, hdrop]
        exact List.take_append_drop _ _

/-! ## Safety, progress, spans, end of input, lossless literals -/

theorem reach_seat (input : String) (n : Nat) (toks : List Token) (l : Lexer)
    (h : run n (New input) = some (toks, l)) : ∃ p ln, l = seat input.data p ln := by
  obtain ⟨toks0, p, ln, h0, _⟩ := run_lines input.data n 0 0
  rw [← New_eq_seat, h] at h0
  exact ⟨p, ln, congrArg Prod.snd (Option.some.inj h0)⟩

theorem safe_seat (inp : List Char) (p ln : Nat) : SafePost (seat inp p ln) := by
  refine ⟨?_, ⟨?_, ?_⟩, ?_, ?_, ?_⟩
  · obtain ⟨t, p', hN, _⟩ := NextToken_step inp p ln
    exact ⟨t, _, hN, WF_seat _ _ _, rfl⟩
  · intro h
    rw [readChar_eq]
    exact getD_of_lt inp (p + 1) h
  · intro h
    rw [readChar_eq]
    exact getD_of_le inp (p + 1) h
  · intro hc
    have hc2 : inp.getD p NUL = '"' := hc
    have hlt : p < inp.length := lt_of_getD_ne inp p (by rw [hc2]; decide)
    obtain ⟨q, hq1, hq2, hq3, hq4⟩ := exists_stop inp p hlt
    exact ⟨_, _, readString_seat inp p ln q hq1 hq3 hq4 hq2, hq1, hq2⟩
  · intro hc
    have hc2 : isNumber (inp.getD p NUL) = true := hc
    have hlt : p < inp.length := lt_of_getD_ne inp p (number_not _ hc2).2.2.2.2.2.2.2.1
    have hle := takeWhile_drop_length_le isNumber inp p
    refine ⟨_, _, readNumber_seat inp p ln (Nat.le_of_lt hlt), Nat.le_add_right _ _, ?_⟩
    change p + ((inp.drop p).takeWhile isNumber).length ≤ inp.length
    omega
  · intro hc
    have hc2 : isLetter (inp.getD p NUL) = true := hc
    have hlt : p < inp.length := lt_of_getD_ne inp p (letter_not _ hc2).2.2.2.2.2.2.2
    have hle := takeWhile_drop_length_le isLetter inp p
    refine ⟨_, _, readIdentifier_seat inp p ln (Nat.le_of_lt hlt), Nat.le_add_right _ _, ?_⟩
    change p + ((inp.drop p).takeWhile isLetter).length ≤ inp.length
    omega

theorem safe_post (l : Lexer) (hwf : l.WF) : SafePost l := by
  have h := safe_seat l.Input l.position l.line
  rw [← seat_of_WF l hwf] at h
  exact h

/-- C12: in every lexer state that satisfies the cursor invariant (so in every
reachable one) `NextToken` completes and returns a token with no out-of-range
access: `readChar` indexes the input only below `len(Input)`, and the slices
of `readString`, `readNumber` and `readIdentifier` have `a ≤ b ≤ len(Input)`;
for every input any number of calls return that many tokens, so invalid input
shows up only as tokens, never as a failed call. -/
theorem C12_no_out_of_range :
    (∀ l : Lexer, l.WF → SafePost l) ∧
    (∀ (input : String) (n : Nat), ∃ toks l, run n (New input) = some (toks, l) ∧
      toks.length = n ∧ l.WF) := by
  refine ⟨safe_post, ?_⟩
  intro input n
  obtain ⟨toks, p', ln', hr, hlen, _⟩ := run_lines input.data n 0 0
  rw [← New_eq_seat] at hr
  exact ⟨toks, _, hr, hlen, WF_seat _ _ _⟩

/-- C12, at the unterminated input `"ab`: the string scan returns with slice
bounds `1 ≤ 3 ≤ 3`, and at the malformed input `@"\` three calls return
Illegal, String and EOF. -/
theorem C12_no_out_of_range_witness :
    (New "\"ab").WF ∧ SafePost (New "\"ab") ∧
    readString (New "\"ab") = some ("ab", seat "\"ab".data 3 0) ∧
    kindsAndLiterals (run 3 (New "@\"\\")) =
      some [(TokenType.Illegal, "@"), (TokenType.String, "\\"), (TokenType.EOF, "")] :=
  ⟨by decide, C12_no_out_of_range.1 (New "\"ab") (by decide), by decide, by decide⟩

/-- C13: the token stream is finite. For every input, every `NextToken` call
on the lexer that returns a non-EOF token moves `position` forward by at
least one; and the calls on `New(input)` return at most `len(input)` non-EOF
tokens before the first EOF, so one of the first `len(input) + 1` calls
returns EOF. -/
theorem C13_stream_finite (input : String) :
    (∀ (n : Nat) (toks : List Token) (l : Lexer) (t : Token) (l' : Lexer),
      run n (New input) = some (toks, l) → NextToken l = some (t, l') →
      t.Typ ≠ TokenType.EOF → l.position + 1 ≤ l'.position) ∧
    ∃ pre e l, run (pre.length + 1) (New input) = some (pre ++ [e], l) ∧
      pre.length ≤ input.data.length ∧ (∀ t ∈ pre, t.Typ ≠ TokenType.EOF) ∧
      e.Typ = TokenType.EOF := by
  constructor
  · intro n toks l t l' hrun hnext _
    obtain ⟨p, ln, hl⟩ := reach_seat input n toks l hrun
    subst hl
    obtain ⟨t0, p', hN, _, hlt, _⟩ := NextToken_step input.data p ln
    rw [hnext] at hN
    have hl' : l' = seat input.data p' (ln + wsNewlines input.data p) :=
      congrArg Prod.snd (Option.some.inj hN)
    subst hl'
    change p + 1 ≤ p'
    omega
  · obtain ⟨pre, e, p', ln', hr, hlen, hpre, he, _⟩ :=
      first_EOF input.data input.data.length 0 0 (by omega)
    rw [← New_eq_seat] at hr
    exact ⟨pre, e, _, hr, by omega, hpre, he⟩

/-- C13, at the input `[1`: after the bracket, the call that returns the
Number moves the cursor from 1 to 2. -/
theorem C13_stream_finite_witness :
    run 1 (New "[1") =
      some ([{ Typ := TokenType.LeftBracket, Literal := "[", Line := 0, Start := 0, End := 1 }],
            seat "[1".data 1 0) ∧
    NextToken (seat "[1".data 1 0) =
      some ({ Typ := TokenType.Number, Literal := "1", Line := 0, Start := 1, End := 2 },
            seat "[1".data 2 0) ∧
    (seat "[1".data 1 0).position + 1 ≤ (seat "[1".data 2 0).position ∧
    kindsAndLiterals (run 3 (New "[1")) =
      some [(TokenType.LeftBracket, "["), (TokenType.Number, "1"), (TokenType.EOF, "")] := by
  have h1 : run 1 (New "[1") =
      some ([{ Typ := TokenType.LeftBracket, Literal := "[", Line := 0, Start := 0, End := 1 }],
            seat "[1".data 1 0) := by decide
  have h2 : NextToken (seat "[1".data 1 0) =
      some ({ Typ := TokenType.Number, Literal := "1", Line := 0, Start := 1, End := 2 },
            seat "[1".data 2 0) := by decide
  exact ⟨h1, h2, (C13_stream_finite "[1").1 1 _ _ _ _ h1 h2 (by decide), by decide⟩

/-- C14: for every input, every token returned by the successive `NextToken`
calls on `New(input)` whose kind is not Illegal has `Start ≤ End`. -/
theorem C14_span_ordered (input : String) (n : Nat) (toks : List Token) (l : Lexer)
    (hrun : run n (New input) = some (toks, l)) (t : Token) (ht : t ∈ toks)
    (_hk : t.Typ ≠ TokenType.Illegal) : t.Start ≤ t.End := by
  obtain ⟨toks0, p', ln', h0, hall⟩ := run_spans input.data n 0 0
  rw [← New_eq_seat, hrun] at h0
  have e : toks = toks0 := congrArg Prod.fst (Option.some.inj h0)
  exact hall t (e ▸ ht)

/-- C14, at the input `"k":[true,-1.5,null]`: the String token, returned
first, has span `(2, 3)`. -/
theorem C14_span_ordered_witness :
    run 1 (New "\"k\":[true,-1.5,null]") =
      some ([{ Typ := TokenType.String, Literal := "k", Line := 0, Start := 2, End := 3 }],
            seat "\"k\":[true,-1.5,null]".data 3 0) ∧
    (2 : Nat) ≤ 3 ∧
    (run 10 (New "\"k\":[true,-1.5,null]")).map (fun r => r.1.map fun t => (t.Start, t.End)) =
      some [(2, 3), (3, 4), (4, 5), (5, 9), (9, 10), (10, 14), (14, 15), (15, 19), (19, 20),
            (0, 0)] := by
  have h1 : run 1 (New "\"k\":[true,-1.5,null]") =
      some ([{ Typ := TokenType.String, Literal := "k", Line := 0, Start := 2, End := 3 }],
            seat "\"k\":[true,-1.5,null]".data 3 0) := by decide
  exact ⟨h1, C14_span_ordered "\"k\":[true,-1.5,null]" 1 _ _ h1
    { Typ := TokenType.String, Literal := "k", Line := 0, Start := 2, End := 3 }
    (List.mem_singleton.2 rfl) (by decide), by decide⟩

/-- C19: for every input without a NUL rune, a `NextToken` call on the lexer
made by `New(input)` returns an EOF token only when, after the whitespace
skip, the cursor position is at or beyond `len(Input)`; and from that first
EOF on every call returns the identical token: kind EOF, empty literal,
`Start = 0`, `End = 0` and the same `Line`. -/
theorem C19_EOF_only_at_end (input : String) (hn : NoNUL input.data) (m : Nat)
    (toks : List Token) (l : Lexer) (t : Token) (l' : Lexer)
    (hrun : run m (New input) = some (toks, l))
    (hnext : NextToken l = some (t, l')) (hE : t.Typ = TokenType.EOF) :
    (∃ l1, skipWhitespace l = some l1 ∧ input.data.length ≤ l1.position) ∧
    t = { Typ := TokenType.EOF, Literal := "", Line := t.Line, Start := 0, End := 0 } ∧
    ∀ k : Nat, ∃ later l'', run k l' = some (later, l'') ∧ later.length = k ∧
      ∀ t' ∈ later, t' = t := by
  obtain ⟨p, ln, hl⟩ := reach_seat input m toks l hrun
  subst hl
  obtain ⟨t0, p', hN, _, _, _, h5, h6, _⟩ := NextToken_step_full input.data p ln
  rw [hnext] at hN
  have ht : t = t0 := congrArg Prod.fst (Option.some.inj hN)
  have hl' : l' = seat input.data p' (ln + wsNewlines input.data p) :=
    congrArg Prod.snd (Option.some.inj hN)
  subst hl'
  subst ht
  by_cases c : input.data.getD (p + wsLen input.data p) NUL = NUL
  · obtain ⟨htok, hp'⟩ := h5 c
    have hend : input.data.length ≤ p + wsLen input.data p := by
      by_contra hlt
      exact getD_ne_NUL input.data hn _ (by omega) c
    refine ⟨⟨_, skipWhitespace_seat input.data p ln, hend⟩, ?_, ?_⟩
    · rw [htok]
    · intro k
      obtain ⟨later, p'', hr, hlen, hall⟩ :=
        EOF_forever input.data (ln + wsNewlines input.data p) k p' (by omega)
      refine ⟨later, _, hr, hlen, ?_⟩
      intro t' ht'
      rw [hall t' ht', htok]
  · exact absurd hE (h6 c).1

/-- C19, at the input `[\n`: the second call returns EOF on line 1 with the
cursor at index 2, the end of the input, and the four calls after it return
the same token. -/
theorem C19_EOF_only_at_end_witness :
    NoNUL "[\n".data ∧
    run 1 (New "[\n") =
      some ([{ Typ := TokenType.LeftBracket, Literal := "[", Line := 0, Start := 0, End := 1 }],
            seat "[\n".data 1 0) ∧
    NextToken (seat "[\n".data 1 0) =
      some ({ Typ := TokenType.EOF, Literal := "", Line := 1, Start := 0, End := 0 },
            seat "[\n".data 3 1) ∧
    ((∃ l1, skipWhitespace (seat "[\n".data 1 0) = some l1 ∧ "[\n".data.length ≤ l1.position) ∧
      ({ Typ := TokenType.EOF, Literal := "", Line := 1, Start := 0, End := 0 } : Token) =
        { Typ := TokenType.EOF, Literal := "", Line := 1, Start := 0, End := 0 } ∧
      ∀ k : Nat, ∃ later l'', run k (seat "[\n".data 3 1) = some (later, l'') ∧
        later.length = k ∧
        ∀ t' ∈ later,
          t' = { Typ := TokenType.EOF, Literal := "", Line := 1, Start := 0, End := 0 }) ∧
    (run 4 (seat "[\n".data 3 1)).map Prod.fst =
      some (List.replicate 4
        { Typ := TokenType.EOF, Literal := "", Line := 1, Start := 0, End := 0 }) := by
  have h0 : NoNUL "[\n".data := by decide
  have h1 : run 1 (New "[\n") =
      some ([{ Typ := TokenType.LeftBracket, Literal := "[", Line := 0, Start := 0, End := 1 }],
            seat "[\n".data 1 0) := by decide
  have h2 : NextToken (seat "[\n".data 1 0) =
      some ({ Typ := TokenType.EOF, Literal := "", Line := 1, Start := 0, End := 0 },
            seat "[\n".data 3 1) := by decide
  exact ⟨h0, h1, h2, C19_EOF_only_at_end "[\n" h0 1 _ _ _ _ h1 h2 rfl, by decide⟩

/-- C20: lossless tokenisation. For every input with no whitespace (space,
tab, carriage return, newline), no quote and no NUL, the literals of the
tokens that the successive `NextToken` calls on `New(input)` return before
the first EOF concatenate to exactly the decoded input. -/
theorem C20_lossless_literals (input : String)
    (h : ∀ c ∈ input.data, isWhitespace c = false ∧ c ≠ '"' ∧ c ≠ NUL) :
    ∃ pre e l, run (pre.length + 1) (New input) = some (pre ++ [e], l) ∧
      (∀ t ∈ pre, t.Typ ≠ TokenType.EOF) ∧ e.Typ = TokenType.EOF ∧
      String.mk (literals pre) = input := by
  obtain ⟨pre, e, p', ln', hr, _, hpre, he, hlit⟩ :=
    first_EOF input.data input.data.length 0 0 (by omega)
  rw [← New_eq_seat] at hr
  refine ⟨pre, e, _, hr, hpre, he, ?_⟩
  rw [hlit (by simpa using h)]
  rfl

/-- C20, at the input `[tru,-1.#X]\`: eight tokens, whose literals
concatenate to the input. -/
theorem C20_lossless_literals_witness :
    (∀ c ∈ "[tru,-1.#X]\\".data, isWhitespace c = false ∧ c ≠ '"' ∧ c ≠ NUL) ∧
    (∃ pre e l, run (pre.length + 1) (New "[tru,-1.#X]\\") = some (pre ++ [e], l) ∧
      (∀ t ∈ pre, t.Typ ≠ TokenType.EOF) ∧ e.Typ = TokenType.EOF ∧
      String.mk (literals pre) = "[tru,-1.#X]\\") ∧
    kindsAndLiterals (run 9 (New "[tru,-1.#X]\\")) =
      some [(TokenType.LeftBracket, "["), (TokenType.Illegal, "tru"), (TokenType.Comma, ","),
            (TokenType.Number, "-1."), (TokenType.Illegal, "#"), (TokenType.Illegal, "X"),
            (TokenType.RightBracket, "]"), (TokenType.Illegal, "\\"), (TokenType.EOF, "")] :=
  ⟨by decide, C20_lossless_literals "[tru,-1.#X]\\" (by decide), by decide⟩

end JsonLexer
